import Mathlib

/- Shallow embedding of the SManga repository (Python) and proofs about the
   frozen specification claims.

   Part 1 embeds `SManga/pipelines.py` (class CustomJsonFeed): the incremental
   feed store that loads an existing JSON feed, accumulates freshly scraped
   chapter records, deduplicates them by title, sorts them by the number
   embedded in the title and writes the result back.

   Modelling conventions, used throughout the file:
   - Python dicts holding JSON objects become association lists
     `List (String × String)` or structures when the field set is fixed.
   - Python's `dict` comprehension keyed on title keeps the FIRST occurrence
     position of each key and the LAST value inserted for it; `updateAssoc`
     below reproduces exactly that.
   - `sorted` in Python is a stable sort; any two stable sorts by the same
     key agree extensionally, so a stable insertion sort is a faithful
     embedding of `sorted(unique_chapters, key=extract_chapter_number)`.
   - `re.search(r"\d+", title)` matches Unicode decimal digits (category Nd):
     CPython's `\d` and `int()` both consult the unicodedata decimal table, so
     the model carries that table (`decimalRanges`, Unicode 14.0: 66 ranges of
     ten codepoints, each starting at the script's zero, the digit value being
     the offset from the range start); `float("inf")` for a digitless title
     becomes `Option.none`, ordered after every number by `keyLe`/`keyLt`.
   - The filesystem is a pure map `String → Option FeedData`: `none` stands
     for "missing file or invalid JSON" (both make `json.load` fail and are
     absorbed by `load_data`). -/

set_option maxRecDepth 8000
set_option linter.unnecessarySeqFocus false

namespace SManga

structure Chapter where
  title : String
  images : List String
  document_location : String
deriving DecidableEq, Repr

abbrev Details := List (String × String)

structure FeedData where
  details : Details
  chapters : List Chapter
deriving DecidableEq, Repr

/-! ### `extract_chapter_number` (pipelines.py lines 120-123)

`re.search(r"\d+", title)` in Python 3 matches Unicode decimal digits
(category Nd), not only ASCII `0-9`, and `int()` converts any run of them;
both read the unicodedata decimal table.  `decimalRanges` is that table
(Unicode 14.0): every Nd script block is ten consecutive codepoints starting
at the script's zero, so a digit's value is its offset from the range
start. -/

def decimalRanges : List (Nat × Nat) := [
  (48, 57), (1632, 1641), (1776, 1785),
  (1984, 1993), (2406, 2415), (2534, 2543),
  (2662, 2671), (2790, 2799), (2918, 2927),
  (3046, 3055), (3174, 3183), (3302, 3311),
  (3430, 3439), (3558, 3567), (3664, 3673),
  (3792, 3801), (3872, 3881), (4160, 4169),
  (4240, 4249), (6112, 6121), (6160, 6169),
  (6470, 6479), (6608, 6617), (6784, 6793),
  (6800, 6809), (6992, 7001), (7088, 7097),
  (7232, 7241), (7248, 7257), (42528, 42537),
  (43216, 43225), (43264, 43273), (43472, 43481),
  (43504, 43513), (43600, 43609), (44016, 44025),
  (65296, 65305), (66720, 66729), (68912, 68921),
  (69734, 69743), (69872, 69881), (69942, 69951),
  (70096, 70105), (70384, 70393), (70736, 70745),
  (70864, 70873), (71248, 71257), (71360, 71369),
  (71472, 71481), (71904, 71913), (72016, 72025),
  (72784, 72793), (73040, 73049), (73120, 73129),
  (92768, 92777), (92864, 92873), (93008, 93017),
  (120782, 120791), (120792, 120801), (120802, 120811),
  (120812, 120821), (120822, 120831), (123200, 123209),
  (123632, 123641), (125264, 125273), (130032, 130041)]

/-- `\d` of Python's `re`: a Unicode decimal digit (category Nd). -/
def isDecimalDigit (c : Char) : Bool :=
  decimalRanges.any fun r => r.1 ≤ c.toNat ∧ c.toNat ≤ r.2

/-- The decimal value unicodedata assigns the digit: its offset from the
start of its script's zero-to-nine block (0 on a non-digit, never reached
below). -/
def decimalVal (c : Char) : Nat :=
  match decimalRanges.find? (fun r => decide (r.1 ≤ c.toNat ∧ c.toNat ≤ r.2)) with
  | some r => c.toNat - r.1
  | none => 0

def takeDigits : List Char → List Char
  | [] => []
  | c :: cs => if isDecimalDigit c then c :: takeDigits cs else []

def firstDigitRun : List Char → Option (List Char)
  | [] => none
  | c :: cs => if isDecimalDigit c then some (c :: takeDigits cs) else firstDigitRun cs

def digitsVal (ds : List Char) : Nat :=
  ds.foldl (fun n c => n * 10 + decimalVal c) 0

def extract_chapter_number (title : String) : Option Nat :=
  (firstDigitRun title.data).map digitsVal

def chapterKey (c : Chapter) : Option Nat :=
  extract_chapter_number c.title

/-- `a ≤ b` on sort keys, `none` playing the role of `float("inf")`. -/
def keyLe : Option Nat → Option Nat → Bool
  | _, none => true
  | none, some _ => false
  | some a, some b => a ≤ b

/-- `a < b` on sort keys, `none` playing the role of `float("inf")`. -/
def keyLt : Option Nat → Option Nat → Bool
  | none, _ => false
  | some _, none => true
  | some a, some b => a < b

/-! ### `clean_and_sort_chapters` (pipelines.py lines 108-125)

The dict comprehension `{chapter["title"]: chapter for chapter in chapters}`
is `dedupByTitle`; the `isinstance`/`"title" in chapter` guard is vacuous in
this typed embedding, where every record has a title. -/

def updateAssoc : List Chapter → Chapter → List Chapter
  | [], c => [c]
  | d :: ds, c => if d.title = c.title then c :: ds else d :: updateAssoc ds c

def dedupByTitle (l : List Chapter) : List Chapter :=
  l.foldl updateAssoc []

/-- One step of the stable insertion sort: `c` passes every element whose key
is strictly smaller and lands in front of the first element whose key is
greater or equal, so elements with equal keys keep their input order. -/
def insertCh (c : Chapter) : List Chapter → List Chapter
  | [] => [c]
  | d :: ds => if keyLt (chapterKey d) (chapterKey c) then d :: insertCh c ds else c :: d :: ds

def sortChapters : List Chapter → List Chapter
  | [] => []
  | c :: cs => insertCh c (sortChapters cs)

def clean_and_sort_chapters (l : List Chapter) : List Chapter :=
  sortChapters (dedupByTitle l)

/-! ### `generate_file_name` (pipelines.py lines 83-86) -/

def forbiddenChars : List Char := ['<', '>', ':', '"', '/', '\\', '|', '?', '*']

def sanitizeChar (c : Char) : Char :=
  if c ∈ forbiddenChars then '_' else c

def generate_file_name (details : Details) : String :=
  let m := (details.lookup ("manganame")).getD ("unknown")
  let hyphened := m.data.map (fun c => if c = ' ' then '-' else c)
  let sanitized := hyphened.map sanitizeChar
  String.mk (sanitized.map Char.toLower) ++ (".json")

/-! ### The pipeline state machine (pipelines.py lines 17-106) -/

structure PipeState where
  file_name : Option String
  dest_path : Option String
  overwrite : Bool
  json_enabled : Bool
  data : FeedData
  load : Bool
deriving DecidableEq, Repr

/-- One scraped item, as seen by `process_item` after `ItemAdapter.asdict`:
it may carry a `details` dict and/or a single chapter record. -/
structure SItem where
  details : Option Details
  chapter : Option Chapter
deriving DecidableEq, Repr

abbrev FileSys := String → Option FeedData

def pathJoin (d f : String) : String := d ++ ("/") ++ f

/-- Python truthiness of an optional string: `None` and `""` are falsy. -/
def optStrFalsy : Option String → Bool
  | none => true
  | some s => s = ""

/-- `CustomJsonFeed.load_data`: reads the existing feed only when
`overwrite` is off and both the file name and destination are set
(and the file name is truthy). `none` covers a missing file and a
JSON/IO error alike, both of which make the method return `None`. -/
def load_data (st : PipeState) (fs : FileSys) : Option FeedData :=
  match st.overwrite, st.file_name, st.dest_path with
  | false, some f, some p => if f = ("") then none else fs (pathJoin p f)
  | _, _, _ => none

/-- `CustomJsonFeed.open_spider`: seed `self.data` from the existing feed;
on success the `load` flag is set (inside `load_data` in the source). -/
def open_spider (st : PipeState) (fs : FileSys) : PipeState :=
  match load_data st fs with
  | some d =>
    { st with
      data := { details := d.details, chapters := st.data.chapters ++ d.chapters }
      load := true }
  | none => st

/-- `CustomJsonFeed.process_item`. -/
def process_item (st : PipeState) (item : SItem) : PipeState :=
  if st.json_enabled then
    let st1 :=
      match item.details with
      | some d =>
        let s2 := { st with data := { st.data with details := d } }
        if optStrFalsy s2.file_name then
          { s2 with file_name := some (generate_file_name d) }
        else s2
      | none => st
    match item.chapter with
    | some c => { st1 with data := { st1.data with chapters := st1.data.chapters ++ [c] } }
    | none => st1
  else st

/-- `CustomJsonFeed.close_spider`: the returned pair is the final state and,
when a write happens, the path written together with the feed written there.
Note the order in the reload branch: the existing chapters are `extend`ed
AFTER the freshly scraped ones. -/
def close_spider (st : PipeState) (fs : FileSys) : PipeState × Option (String × FeedData) :=
  match st.file_name, st.dest_path with
  | some f, some p =>
    if f = ("") then (st, none) else
    let st2 :=
      if ¬ st.overwrite ∧ ¬ st.load then
        match load_data st fs with
        | some d =>
          let chs := st.data.chapters ++ d.chapters
          let det := if st.data.details = [] then d.details else st.data.details
          { st with data := { details := det, chapters := chs }, load := true }
        | none => st
      else st
    let final : FeedData :=
      { details := st2.data.details, chapters := clean_and_sort_chapters st2.data.chapters }
    ({ st2 with data := final }, some (pathJoin p f, final))
  | _, _ => (st, none)

/-- A whole run of the pipeline: `open_spider`, one `process_item` per scraped
item (in scrape order), then `close_spider`. -/
def runPipeline (st0 : PipeState) (fs : FileSys) (items : List SItem) :
    PipeState × Option (String × FeedData) :=
  let st1 := open_spider st0 fs
  let st2 := items.foldl process_item st1
  close_spider st2 fs

/-- The initial state built by `CustomJsonFeed.__init__` / `from_crawler`. -/
def initState (file_name : Option String) (dest_path : Option String)
    (overwrite : Bool) (json_enabled : Bool) : PipeState :=
  { file_name := file_name
    dest_path := dest_path
    overwrite := overwrite
    json_enabled := json_enabled
    data := { details := [], chapters := [] }
    load := false }

/-! ### Order lemmas for the sort key -/

theorem keyLe_of_keyLt {a b : Option Nat} (h : keyLt a b = true) : keyLe a b = true := by
  cases a <;> cases b <;> simp [keyLt, keyLe] at * <;> omega

theorem keyLe_of_not_keyLt {a b : Option Nat} (h : keyLt a b = false) : keyLe b a = true := by
  cases a <;> cases b <;> simp [keyLt, keyLe] at * <;> omega

theorem keyLe_trans {a b c : Option Nat} (h1 : keyLe a b = true) (h2 : keyLe b c = true) :
    keyLe a c = true := by
  cases a <;> cases b <;> cases c <;> simp [keyLe] at * <;> omega

theorem ne_of_keyLt {a b : Option Nat} (h : keyLt a b = true) : a ≠ b := by
  cases a <;> cases b <;> simp [keyLt] at * <;> omega

/-! ### Lemmas about `insertCh` and `sortChapters` -/

theorem mem_insertCh {x c : Chapter} : ∀ {l : List Chapter}, x ∈ insertCh c l → x = c ∨ x ∈ l := by
  intro l
  induction l with
  | nil => intro h; simp [insertCh] at h; exact Or.inl h
  | cons d ds ih =>
    intro h
    simp only [insertCh] at h
    by_cases hlt : keyLt (chapterKey d) (chapterKey c) = true
    · rw [if_pos hlt] at h
      rcases List.mem_cons.mp h with h | h
      · exact Or.inr (List.mem_cons.mpr (Or.inl h))
      · rcases ih h with h | h
        · exact Or.inl h
        · exact Or.inr (List.mem_cons.mpr (Or.inr h))
    · rw [if_neg hlt] at h
      rcases List.mem_cons.mp h with h | h
      · exact Or.inl h
      · exact Or.inr h

def ChapterLe (a b : Chapter) : Prop := keyLe (chapterKey a) (chapterKey b) = true

theorem pairwise_insertCh {c : Chapter} :
    ∀ {l : List Chapter}, l.Pairwise ChapterLe → (insertCh c l).Pairwise ChapterLe := by
  intro l
  induction l with
  | nil => intro _; simp [insertCh, ChapterLe]
  | cons d ds ih =>
    intro h
    rcases List.pairwise_cons.mp h with ⟨hd, hds⟩
    simp only [insertCh]
    by_cases hlt : keyLt (chapterKey d) (chapterKey c) = true
    · rw [if_pos hlt]
      refine List.pairwise_cons.mpr ⟨?_, ih hds⟩
      intro x hx
      rcases mem_insertCh hx with rfl | hx
      · exact keyLe_of_keyLt hlt
      · exact hd x hx
    · rw [if_neg hlt]
      refine List.pairwise_cons.mpr ⟨?_, h⟩
      intro x hx
      have hcd : ChapterLe c d := keyLe_of_not_keyLt (Bool.eq_false_iff.mpr hlt)
      rcases List.mem_cons.mp hx with rfl | hx
      · exact hcd
      · exact keyLe_trans hcd (hd x hx)

theorem perm_insertCh {c : Chapter} : ∀ {l : List Chapter}, List.Perm (insertCh c l) (c :: l) := by
  intro l
  induction l with
  | nil => exact List.Perm.refl _
  | cons d ds ih =>
    simp only [insertCh]
    by_cases hlt : keyLt (chapterKey d) (chapterKey c) = true
    · rw [if_pos hlt]
      exact (ih.cons d).trans (List.Perm.swap c d ds)
    · rw [if_neg hlt]

theorem sortChapters_pairwise : ∀ (l : List Chapter), (sortChapters l).Pairwise ChapterLe := by
  intro l
  induction l with
  | nil => simp [sortChapters]
  | cons c cs ih => exact pairwise_insertCh ih

theorem sortChapters_perm : ∀ (l : List Chapter), List.Perm (sortChapters l) l := by
  intro l
  induction l with
  | nil => exact List.Perm.refl _
  | cons c cs ih => exact perm_insertCh.trans (ih.cons c)

/-- Stability of one insertion step, phrased through the sublist of a fixed
key `k`: inserting `c` leaves that sublist unchanged unless `c` itself has
key `k`, in which case `c` lands in front of it. -/
theorem filter_insertCh (k : Option Nat) (c : Chapter) :
    ∀ (l : List Chapter),
    ((insertCh c l).filter fun x => chapterKey x == k) =
      if chapterKey c == k then c :: (l.filter fun x => chapterKey x == k)
      else l.filter fun x => chapterKey x == k := by
  intro l
  induction l with
  | nil => by_cases hck : chapterKey c = k <;> simp [insertCh, List.filter_cons, hck]
  | cons d ds ih =>
    simp only [insertCh]
    by_cases hlt : keyLt (chapterKey d) (chapterKey c) = true
    · rw [if_pos hlt]
      by_cases hck : chapterKey c = k
      · have hdk : ¬ (chapterKey d = k) := by
          intro hd
          exact ne_of_keyLt hlt (hd.trans hck.symm)
        simp [List.filter_cons, hck, hdk, ih]
      · simp [List.filter_cons, hck, ih]
    · rw [if_neg hlt]
      by_cases hck : chapterKey c = k
      · simp [List.filter_cons, hck]
      · simp [List.filter_cons, hck]

/-- Stability of the whole sort: for every key value `k`, the records whose
title yields `k` appear in the output in exactly the order the input gave
them. -/
theorem sortChapters_stable (k : Option Nat) :
    ∀ (l : List Chapter),
    ((sortChapters l).filter fun x => chapterKey x == k) =
      l.filter fun x => chapterKey x == k := by
  intro l
  induction l with
  | nil => simp [sortChapters]
  | cons c cs ih =>
    simp only [sortChapters]
    rw [filter_insertCh]
    by_cases hck : chapterKey c = k
    · simp [List.filter_cons, hck, ih]
    · simp [List.filter_cons, hck, ih]

/-! ### Lemmas about `dedupByTitle` -/

/-- The last record of `l` whose title is `t`, i.e. the value the dict
comprehension keeps for key `t`. -/
def lastWith (t : String) : List Chapter → Option Chapter
  | [] => none
  | c :: cs =>
    match lastWith t cs with
    | some x => some x
    | none => if c.title = t then some c else none

theorem filter_updateAssoc (t : String) (c : Chapter) :
    ∀ (acc : List Chapter), ((acc.filter fun x => x.title == t)).length ≤ 1 →
    ((updateAssoc acc c).filter fun x => x.title == t) =
      if c.title == t then [c] else acc.filter fun x => x.title == t := by
  intro acc
  induction acc with
  | nil =>
    intro _
    by_cases hct : c.title = t <;> simp [updateAssoc, List.filter_cons, hct]
  | cons d ds ih =>
    intro h
    have hsub : ((ds.filter fun x => x.title == t)).length ≤ 1 := by
      by_cases hdt : d.title = t
      · have heq : ((d :: ds).filter fun x => x.title == t) =
            d :: (ds.filter fun x => x.title == t) := by
          simp [List.filter_cons, hdt]
        rw [heq, List.length_cons] at h
        omega
      · have heq : ((d :: ds).filter fun x => x.title == t) =
            ds.filter fun x => x.title == t := by
          simp [List.filter_cons, hdt]
        rwa [heq] at h
    simp only [updateAssoc]
    by_cases hdc : d.title = c.title
    · rw [if_pos hdc]
      by_cases hct : c.title = t
      · have hdt : d.title = t := hdc.trans hct
        have hempty : (ds.filter fun x => x.title == t) = [] := by
          have heq : ((d :: ds).filter fun x => x.title == t) =
              d :: (ds.filter fun x => x.title == t) := by
            simp [List.filter_cons, hdt]
          rw [heq, List.length_cons] at h
          exact List.length_eq_zero.mp (by omega)
        simp [List.filter_cons, hct, hempty]
      · have hdt : ¬ (d.title = t) := fun hd => hct (hdc.symm.trans hd)
        simp [List.filter_cons, hct, hdt]
    · rw [if_neg hdc]
      by_cases hdt : d.title = t
      · have hct : ¬ (c.title = t) := fun hc => hdc (hdt.trans hc.symm)
        simp [List.filter_cons, hdt, hct, ih hsub]
      · by_cases hct : c.title = t <;> simp [List.filter_cons, hdt, hct, ih hsub]

theorem filter_foldl_updateAssoc (t : String) :
    ∀ (l acc : List Chapter), ((acc.filter fun x => x.title == t)).length ≤ 1 →
    ((l.foldl updateAssoc acc).filter fun x => x.title == t) =
      match lastWith t l with
      | some c => [c]
      | none => acc.filter fun x => x.title == t := by
  intro l
  induction l with
  | nil => intro acc _; simp [lastWith]
  | cons c ls ih =>
    intro acc h
    have hstep := filter_updateAssoc t c acc h
    have h2 : (((updateAssoc acc c).filter fun x => x.title == t)).length ≤ 1 := by
      rw [hstep]
      by_cases hct : (c.title == t) = true
      · rw [if_pos hct]; simp
      · rw [if_neg hct]; exact h
    simp only [List.foldl_cons]
    rw [ih (updateAssoc acc c) h2, hstep]
    cases hl : lastWith t ls with
    | some x => simp [lastWith, hl]
    | none =>
      by_cases hct : c.title = t <;> simp [lastWith, hl, hct]

/-- The dict comprehension keeps exactly one record per present title:
the last one produced. -/
theorem filter_dedupByTitle (t : String) (l : List Chapter) :
    ((dedupByTitle l).filter fun x => x.title == t) =
      match lastWith t l with
      | some c => [c]
      | none => [] := by
  have := filter_foldl_updateAssoc t l [] (by simp)
  simpa [dedupByTitle] using this

theorem lastWith_append (t : String) :
    ∀ (xs ys : List Chapter), lastWith t (xs ++ ys) =
      match lastWith t ys with
      | some x => some x
      | none => lastWith t xs := by
  intro xs ys
  induction xs with
  | nil =>
    simp only [List.nil_append]
    cases h : lastWith t ys <;> simp [lastWith, h]
  | cons c cs ih =>
    simp only [List.cons_append, lastWith]
    rw [List.append_eq, ih]
    cases hys : lastWith t ys <;> cases hcs : lastWith t cs <;> simp [hys, hcs]

/-! ### JSON string literals (shared by the feed serializer and, later, by
the payload decoder's JSON parser) -/

def jsonEscChar (c : Char) : List Char :=
  if c = '"' then ['\\', '"'] else if c = '\\' then ['\\', '\\'] else [c]

def jsonStrLit (s : String) : List Char :=
  '"' :: (s.data.map jsonEscChar).flatten ++ ['"']

/-! ### `save_data_to_file` (pipelines.py lines 101-106), as a filesystem
trace.  `open(file_path, "w")` truncates the destination itself and the JSON
is then written to it; there is no temporary file and no rename.  The
serializer models the content of `json.dump` (field order as in the dicts;
the `indent=4` whitespace is not modelled, no claim depends on it). -/

inductive FsOp where
  | openWrite : String → FsOp
  | writeStr : String → String → FsOp
  | rename : String → String → FsOp
deriving DecidableEq, Repr

def serializeKV (k v : String) : String :=
  String.mk (jsonStrLit k) ++ (": ") ++ String.mk (jsonStrLit v)

def serializeDetails (d : Details) : String :=
  ("\x7b") ++ String.intercalate (", ") (d.map fun kv => serializeKV kv.1 kv.2) ++ ("\x7d")

def serializeStrList (l : List String) : String :=
  ("[") ++ String.intercalate (", ") (l.map fun s => String.mk (jsonStrLit s)) ++ ("]")

def serializeChapter (c : Chapter) : String :=
  ("\x7b") ++ serializeKV ("title") c.title ++ (", ")
    ++ String.mk (jsonStrLit ("images")) ++ (": ") ++ serializeStrList c.images ++ (", ")
    ++ serializeKV ("document_location") c.document_location ++ ("\x7d")

def serializeFeed (d : FeedData) : String :=
  ("\x7b") ++ String.mk (jsonStrLit ("details")) ++ (": ") ++ serializeDetails d.details
    ++ (", ") ++ String.mk (jsonStrLit ("chapters")) ++ (": [")
    ++ String.intercalate (", ") (d.chapters.map serializeChapter) ++ ("]\x7d")

def save_data_to_file (file_path : String) (d : FeedData) : List FsOp :=
  [FsOp.openWrite file_path, FsOp.writeStr file_path (serializeFeed d)]

def isRenameTo (path : String) : FsOp → Bool
  | FsOp.rename _ dst => dst = path
  | _ => false

def touchesPathDirectly (path : String) : FsOp → Bool
  | FsOp.openWrite q => q = path
  | FsOp.writeStr q _ => q = path
  | FsOp.rename _ _ => false

/-- The write-temp-then-rename discipline the spec demands: the final path is
never opened or written directly, and the data is installed by renaming
something onto it. -/
def usesTempThenRename (trace : List FsOp) (path : String) : Bool :=
  trace.any (isRenameTo path) && !(trace.any (touchesPathDirectly path))

/-! ### Facts about single `process_item` steps and their folds -/

theorem process_item_const (st : PipeState) (i : SItem) :
    (process_item st i).json_enabled = st.json_enabled ∧
    (process_item st i).overwrite = st.overwrite ∧
    (process_item st i).dest_path = st.dest_path ∧
    (process_item st i).load = st.load := by
  unfold process_item
  by_cases hj : st.json_enabled = true
  · cases i.details <;> cases i.chapter <;>
      simp [hj, optStrFalsy] <;> split <;> simp
  · simp [hj]

theorem process_item_no_details (st : PipeState) (i : SItem) (h : i.details = none) :
    (process_item st i).data.details = st.data.details ∧
    (process_item st i).file_name = st.file_name := by
  unfold process_item
  rw [h]
  by_cases hj : st.json_enabled = true <;> cases i.chapter <;> simp [hj]

theorem process_item_chapters (st : PipeState) (i : SItem) (hj : st.json_enabled = true)
    (h : i.details = none) :
    (process_item st i).data.chapters = st.data.chapters ++ i.chapter.toList := by
  unfold process_item
  rw [h]
  cases i.chapter <;> simp [hj]

/-- Behaviour of a run's `process_item` fold when no item of the run carries
series details: the state's flags, file name and details are untouched and
the chapters are appended in scrape order. -/
theorem foldl_process_item_no_details (items : List SItem) :
    ∀ (st : PipeState), st.json_enabled = true → (∀ i ∈ items, i.details = none) →
    (items.foldl process_item st).json_enabled = true ∧
    (items.foldl process_item st).overwrite = st.overwrite ∧
    (items.foldl process_item st).dest_path = st.dest_path ∧
    (items.foldl process_item st).load = st.load ∧
    (items.foldl process_item st).file_name = st.file_name ∧
    (items.foldl process_item st).data.details = st.data.details ∧
    (items.foldl process_item st).data.chapters =
      st.data.chapters ++ items.filterMap SItem.chapter := by
  induction items with
  | nil => intro st hj _; simp [hj]
  | cons i is ih =>
    intro st hj hnd
    have hdi : i.details = none := hnd i (List.mem_cons_self i is)
    have hrest : ∀ j ∈ is, j.details = none := fun j hj2 => hnd j (List.mem_cons_of_mem i hj2)
    have hconst := process_item_const st i
    have hnod := process_item_no_details st i hdi
    have hch := process_item_chapters st i hj hdi
    have hj2 : (process_item st i).json_enabled = true := by rw [hconst.1]; exact hj
    obtain ⟨a1, a2, a3, a4, a5, a6, a7⟩ := ih (process_item st i) hj2 hrest
    refine ⟨a1, ?_, ?_, ?_, ?_, ?_, ?_⟩
    · rw [List.foldl_cons] at *; rw [a2, hconst.2.1]
    · rw [List.foldl_cons] at *; rw [a3, hconst.2.2.1]
    · rw [List.foldl_cons] at *; rw [a4, hconst.2.2.2]
    · rw [List.foldl_cons] at *; rw [a5, hnod.2]
    · rw [List.foldl_cons] at *; rw [a6, hnod.1]
    · rw [List.foldl_cons] at *
      rw [a7, hch, List.filterMap_cons]
      cases hc : i.chapter <;> simp [hc, Option.toList]

theorem open_spider_of_load (st : PipeState) (fs : FileSys) (d : FeedData)
    (h : load_data st fs = some d) :
    open_spider st fs =
      { st with data := ⟨d.details, st.data.chapters ++ d.chapters⟩, load := true } := by
  unfold open_spider
  rw [h]

theorem open_spider_of_none (st : PipeState) (fs : FileSys)
    (h : load_data st fs = none) : open_spider st fs = st := by
  unfold open_spider
  rw [h]

/-- `close_spider` when the existing feed was already merged at spider-open
(`load = true`): no reload happens; the accumulated data is deduplicated,
sorted and written to `dest_path / file_name`. -/
theorem close_spider_of_loaded (st : PipeState) (fs : FileSys) (f p : String)
    (hf : st.file_name = some f) (hp : st.dest_path = some p) (hne : ¬ (f = ""))
    (hl : st.load = true) :
    (close_spider st fs).2 =
      some (pathJoin p f, ⟨st.data.details, clean_and_sort_chapters st.data.chapters⟩) := by
  unfold close_spider
  rw [hf, hp]
  have hcond : ¬ (st.overwrite = false ∧ st.load = false) := by simp [hl]
  simp [hcond, hne]

/-- `close_spider` when `overwrite` is on: the existing feed is never read. -/
theorem close_spider_of_overwrite (st : PipeState) (fs : FileSys) (f p : String)
    (hf : st.file_name = some f) (hp : st.dest_path = some p) (hne : ¬ (f = ""))
    (ho : st.overwrite = true) :
    (close_spider st fs).2 =
      some (pathJoin p f, ⟨st.data.details, clean_and_sort_chapters st.data.chapters⟩) := by
  unfold close_spider
  rw [hf, hp]
  have hcond : ¬ (st.overwrite = false ∧ st.load = false) := by simp [ho]
  simp [hcond, hne]

theorem keyLe_none_left {k : Option Nat} (h : keyLe none k = true) : k = none := by
  cases k with
  | none => rfl
  | some b => simp [keyLe] at h

/-- The file-name derivation exactly as claim C10 words it: spaces are
replaced by hyphens, each of the nine reserved characters is replaced by an
underscore, the result is lowercased and a json suffix is appended; details
that carry no manga name produce the fixed unknown name. -/
def specFileName (details : Details) : String :=
  match details.lookup ("manganame") with
  | none => ("unknown.json")
  | some name =>
    let step1 := name.data.map fun c => if c = ' ' then '-' else c
    let step2 := step1.map fun c => if c ∈ forbiddenChars then '_' else c
    String.mk (step2.map Char.toLower) ++ (".json")

/-- Claim C10: a crawl started without an explicit output file name derives
it from the scraped manga name exactly as the sanitise-lowercase-suffix recipe
states, and `process_item` installs that name as soon as details arrive. -/
theorem c10_file_name_derivation (d : Details) (st : PipeState) (i : SItem)
    (hjson : st.json_enabled = true) (hname : st.file_name = none)
    (hdet : i.details = some d) :
    generate_file_name d = specFileName d ∧
    (process_item st i).file_name = some (generate_file_name d) := by
  constructor
  · unfold generate_file_name specFileName sanitizeChar
    cases h : d.lookup ("manganame") with
    | none => simp [h]; decide
    | some name => simp [h]
  · unfold process_item
    rw [hjson, hdet]
    cases hc : i.chapter <;> simp [hname, optStrFalsy]

theorem c10_witness :
    generate_file_name [("manganame", "One Piece")] = specFileName [("manganame", "One Piece")] ∧
    (process_item (initState none (some ("d")) false true)
        ⟨some [("manganame", "One Piece")], none⟩).file_name =
      some (generate_file_name [("manganame", "One Piece")]) :=
  c10_file_name_derivation [("manganame", "One Piece")]
    (initState none (some ("d")) false true)
    ⟨some [("manganame", "One Piece")], none⟩ rfl rfl rfl

/-- Claim C3, amended: merged output is sorted ascending by the integer value
of the first run of UNICODE decimal digits (category Nd) in the title — not
ASCII digits only, since CPython's `\d` and `int()` both read the unicodedata
decimal table; `none` (no decimal digit at all) sorts after every number,
such titles all come after numbered ones, the sort is stable relative to the
deduplicated input (per-key sublists are preserved, and the output is a
permutation of the deduplicated input), and the concrete example of the spec
holds. -/
theorem c3_sort_correctness_amended (l : List Chapter) :
    (clean_and_sort_chapters l).Pairwise ChapterLe ∧
    (clean_and_sort_chapters l).Pairwise
      (fun a b => chapterKey a = none → chapterKey b = none) ∧
    (∀ k : Option Nat, ((clean_and_sort_chapters l).filter fun x => chapterKey x == k) =
      ((dedupByTitle l).filter fun x => chapterKey x == k)) ∧
    List.Perm (clean_and_sort_chapters l) (dedupByTitle l) ∧
    ((clean_and_sort_chapters
        [⟨"Chapter 10", [], ""⟩, ⟨"Chapter 2", [], ""⟩, ⟨"Chapter 1", [], ""⟩]).map
          Chapter.title) = ["Chapter 1", "Chapter 2", "Chapter 10"] := by
  refine ⟨sortChapters_pairwise _, ?_, fun k => sortChapters_stable k _,
    sortChapters_perm _, by decide⟩
  refine (sortChapters_pairwise _).imp ?_
  intro a b hle hnone
  rw [ChapterLe, hnone] at hle
  exact keyLe_none_left hle

/-- Claim C3, counterexample: the title containing only the Arabic-Indic
digit TWO (U+0662) has no ASCII digit, so under the claim's key ("the first
run of ASCII digits", digitless titles after all numbered ones) it would have
to come after the numbered title; but `re.search(r"\d+")` matches the Nd
digit and `int()` values it 2, so the program sorts it FIRST. -/
theorem c3_unicode_digit_counterexample :
    extract_chapter_number ("Chapter ٢") = some 2 ∧
    (("Chapter ٢").data.all fun c => decide (¬ ('0' ≤ c ∧ c ≤ '9'))) = true ∧
    ((clean_and_sort_chapters [⟨"Chapter 3", [], ""⟩, ⟨"Chapter ٢", [], ""⟩]).map
      Chapter.title) = [("Chapter ٢"), ("Chapter 3")] := by decide

/-- Claim C1, amended: when the run produced no series details, an existing
populated details object survives the merge if `overwrite` is false (the
existing feed is folded in at spider-open); with `overwrite = true` the
existing feed is never read and the written details are empty.  The original
claim asserted preservation for both flag values; `overwrite = true` is the
part the code refutes (see the counterexample). -/
theorem c1_details_nonregression_amended (f p : String) (ex : FeedData) (fs : FileSys)
    (items : List SItem) (hf : ¬ (f = "")) (hfs : fs (pathJoin p f) = some ex)
    (hnd : ∀ i ∈ items, i.details = none) :
    (∃ feed, (runPipeline (initState (some f) (some p) false true) fs items).2 =
        some (pathJoin p f, feed) ∧ feed.details = ex.details) ∧
    (∀ feed', (runPipeline (initState (some f) (some p) true true) fs items).2 =
        some (pathJoin p f, feed') → feed'.details = []) := by
  constructor
  · have hld : load_data (initState (some f) (some p) false true) fs = some ex := by
      simp [load_data, initState, hf, hfs]
    unfold runPipeline
    rw [open_spider_of_load _ fs ex hld]
    obtain ⟨b1, b2, b3, b4, b5, b6, b7⟩ := foldl_process_item_no_details items
      ({ initState (some f) (some p) false true with
        data := ⟨ex.details, (initState (some f) (some p) false true).data.chapters ++ ex.chapters⟩,
        load := true }) rfl hnd
    exact ⟨_, close_spider_of_loaded _ fs f p (b5.trans rfl) (b3.trans rfl) hf
      (b4.trans rfl), b6.trans rfl⟩
  · intro feed' hrun
    unfold runPipeline at hrun
    rw [open_spider_of_none _ fs (by simp [load_data, initState])] at hrun
    obtain ⟨b1, b2, b3, b4, b5, b6, b7⟩ :=
      foldl_process_item_no_details items (initState (some f) (some p) true true) rfl hnd
    rw [close_spider_of_overwrite _ fs f p (b5.trans rfl) (b3.trans rfl) hf
      (b2.trans rfl)] at hrun
    have hpair := Option.some.inj hrun
    rw [Prod.mk.injEq] at hpair
    rw [← hpair.2]
    exact b6.trans rfl

theorem c1_witness :
    (∃ feed, (runPipeline (initState (some ("x.json")) (some ("d")) false true)
        (fun q => if q = ("d/x.json") then some (⟨[("manganame", "A")], []⟩ : FeedData)
          else none) []).2 =
        some (pathJoin ("d") ("x.json"), feed) ∧
        feed.details = (⟨[("manganame", "A")], []⟩ : FeedData).details) ∧
    (∀ feed', (runPipeline (initState (some ("x.json")) (some ("d")) true true)
        (fun q => if q = ("d/x.json") then some (⟨[("manganame", "A")], []⟩ : FeedData)
          else none) []).2 =
        some (pathJoin ("d") ("x.json"), feed') → feed'.details = []) :=
  c1_details_nonregression_amended ("x.json") ("d") ⟨[("manganame", "A")], []⟩ _ []
    (by decide) (by decide) (by simp)

/-- Claim C1, counterexample: with `overwrite = true`, an existing feed with
populated details merged against a run that produced none yields empty
details, not the existing ones. -/
theorem c1_overwrite_true_counterexample :
    (runPipeline (initState (some ("x.json")) (some ("d")) true true)
        (fun q => if q = ("d/x.json") then some (⟨[("manganame", "A")], []⟩ : FeedData)
          else none) []).2 =
      some (("d/x.json"), (⟨[], []⟩ : FeedData)) ∧
    (⟨[], []⟩ : FeedData).details ≠ [("manganame", "A")] := by
  constructor
  · decide
  · decide

/-- Claim C2, amended: with `overwrite = false` and the existing feed loaded
at spider-open (the file name was known up front), a title scraped fresh in
this run ends up in the merged feed exactly once, and the surviving record is
the (last) freshly scraped one — whatever the existing feed held under that
title.  When the existing feed is instead loaded inside `close_spider` (file
name only derived during the run), the on-disk record wins (see the
counterexample). -/
theorem c2_dedup_fresh_wins_amended (f p t : String) (ex : FeedData) (fs : FileSys)
    (items : List SItem) (c : Chapter)
    (hf : ¬ (f = "")) (hfs : fs (pathJoin p f) = some ex)
    (hnd : ∀ i ∈ items, i.details = none)
    (hlast : lastWith t (items.filterMap SItem.chapter) = some c) :
    ∃ feed, (runPipeline (initState (some f) (some p) false true) fs items).2 =
        some (pathJoin p f, feed) ∧
      (feed.chapters.filter fun x => x.title == t) = [c] := by
  have hld : load_data (initState (some f) (some p) false true) fs = some ex := by
    simp [load_data, initState, hf, hfs]
  unfold runPipeline
  rw [open_spider_of_load _ fs ex hld]
  obtain ⟨b1, b2, b3, b4, b5, b6, b7⟩ := foldl_process_item_no_details items
    ({ initState (some f) (some p) false true with
      data := ⟨ex.details, (initState (some f) (some p) false true).data.chapters ++ ex.chapters⟩,
      load := true }) rfl hnd
  refine ⟨_, close_spider_of_loaded _ fs f p (b5.trans rfl) (b3.trans rfl) hf
    (b4.trans rfl), ?_⟩
  show ((clean_and_sort_chapters _).filter fun x => x.title == t) = [c]
  rw [b7]
  rw [show ({ initState (some f) (some p) false true with
      data := ⟨ex.details, (initState (some f) (some p) false true).data.chapters ++ ex.chapters⟩,
      load := true } : PipeState).data.chapters = ex.chapters from rfl]
  unfold clean_and_sort_chapters
  have hded2 : ((dedupByTitle (ex.chapters ++ items.filterMap SItem.chapter)).filter
      fun x => x.title == t) = [c] := by
    rw [filter_dedupByTitle, lastWith_append, hlast]
  have hperm2 : List.Perm
      ((sortChapters (dedupByTitle (ex.chapters ++ items.filterMap SItem.chapter))).filter
        fun x => x.title == t) [c] := by
    rw [← hded2]
    exact (sortChapters_perm _).filter _
  exact List.perm_singleton.mp hperm2

theorem c2_witness :
    ∃ feed, (runPipeline (initState (some ("x.json")) (some ("d")) false true)
        (fun q => if q = ("d/x.json") then
            some (⟨[], [⟨"Chapter 1", ["old.jpg"], "u0"⟩]⟩ : FeedData) else none)
        [⟨none, some ⟨"Chapter 1", ["new.jpg"], "u1"⟩⟩]).2 =
        some (pathJoin ("d") ("x.json"), feed) ∧
      (feed.chapters.filter fun x => x.title == ("Chapter 1")) =
        [⟨"Chapter 1", ["new.jpg"], "u1"⟩] :=
  c2_dedup_fresh_wins_amended ("x.json") ("d") ("Chapter 1")
    ⟨[], [⟨"Chapter 1", ["old.jpg"], "u0"⟩]⟩ _
    [⟨none, some ⟨"Chapter 1", ["new.jpg"], "u1"⟩⟩] ⟨"Chapter 1", ["new.jpg"], "u1"⟩
    (by decide) (by decide) (by simp) (by decide)

/-- Claim C2, counterexample: when no explicit file name was given, the
existing feed can only be loaded inside `close_spider`, which appends the
on-disk chapters AFTER the fresh ones; the dict comprehension then keeps the
on-disk record, so the freshly scraped images are lost. -/
theorem c2_close_load_counterexample :
    ((runPipeline (initState none (some ("d")) false true)
        (fun q => if q = ("d/m.json") then
            some (⟨[("manganame", "M")], [⟨"Chapter 1", ["old.jpg"], "u0"⟩]⟩ : FeedData)
          else none)
        [⟨some [("manganame", "M")], none⟩, ⟨none, some ⟨"Chapter 1", ["new.jpg"], "u1"⟩⟩]).2 =
      some (("d/m.json"),
        (⟨[("manganame", "M")], [⟨"Chapter 1", ["old.jpg"], "u0"⟩]⟩ : FeedData))) ∧
    ¬ ((⟨"Chapter 1", ["old.jpg"], "u0"⟩ : Chapter) = ⟨"Chapter 1", ["new.jpg"], "u1"⟩) := by
  constructor
  · decide
  · decide

/-- Claim C6, amended: `save_data_to_file` opens the destination path itself
in write mode and writes the serialized feed to it directly — no temporary
file, no rename; an interruption mid-write can therefore corrupt the
previously valid file. -/
theorem c6_save_writes_in_place_amended (path : String) (d : FeedData) :
    (save_data_to_file path d).any (isRenameTo path) = false ∧
    (save_data_to_file path d).any (touchesPathDirectly path) = true ∧
    usesTempThenRename (save_data_to_file path d) path = false := by
  refine ⟨?_, ?_, ?_⟩ <;>
    simp [save_data_to_file, isRenameTo, touchesPathDirectly, usesTempThenRename]

/-- Claim C6, counterexample: a concrete save of a feed neither renames onto
the destination nor avoids touching it directly, so the write-temp-then-rename
property the claim asserts fails. -/
theorem c6_in_place_counterexample :
    usesTempThenRename (save_data_to_file ("out.json") ⟨[], []⟩) ("out.json") = false ∧
    (save_data_to_file ("out.json") ⟨[], []⟩).any (touchesPathDirectly ("out.json")) = true := by
  constructor
  · decide
  · decide

/-! ## The crawl orchestrator (`SManga/lib/themes/base_spider.py`)

`BaseSpider.parse`, `retry_scraping_with_home_url`, `create_smanga_item`,
`create_chapter_item` and `get_details_and_retry` are embedded over an
abstract page type `P` and an `Extractor` record holding the abstract
`extract_*` methods a concrete theme implements.  Requests carry their
callback and `meta` entries; a crawl run is a fuel-indexed work-queue loop
(`runCrawl`) that records, in order, every emitted item and every processed
request.  Scrapy's scheduler order is irrelevant here: in the scenarios of
the claims at most one request is ever pending, and the retry-count bound is
proved for every queue shape. -/

structure MangaDetailsI where
  source : String
  manganame : Option String
  cover : Option String
  description : Option String
  genre : List String
  author : Option String
  artist : Option String
deriving DecidableEq, Repr

structure SMangaItemI where
  details : Option MangaDetailsI
  chapter : Chapter
deriving DecidableEq, Repr

inductive CB where
  | parse
  | getDetailsAndRetry
deriving DecidableEq, Repr

structure Req where
  url : String
  cb : CB
  metaDetails : Option MangaDetailsI
  metaRetry : Option String
deriving DecidableEq, Repr

structure Resp (P : Type) where
  url : String
  page : P
  metaDetails : Option MangaDetailsI
  metaRetry : Option String

/-- The abstract-method surface of `BaseSpider` that a theme implements
(`extract_title` is total here, as in the Madara theme, which defaults to
the empty string). -/
structure Extractor (P : Type) where
  spiderName : String
  extract_home_url : P → Option String
  extract_next_page_url : P → Option String
  extract_title : P → String
  parse_chapter_image : P → List String
  extract_manga_name : P → Option String
  extract_cover : P → Option String
  extract_description : P → Option String
  extract_genre : P → List String
  extract_author : P → Option String
  extract_artist : P → Option String

inductive Out where
  | item : SMangaItemI → Out
  | req : Req → Out
deriving DecidableEq, Repr

def create_chapter_item {P : Type} (E : Extractor P) (r : Resp P) : Chapter :=
  ⟨E.extract_title r.page, E.parse_chapter_image r.page, r.url⟩

def create_smanga_item {P : Type} (E : Extractor P) (r : Resp P) : SMangaItemI :=
  ⟨r.metaDetails, create_chapter_item E r⟩

/-- The tail of `BaseSpider.parse`: yield the item, then follow the next page
if it is truthy and starts with http (note `response.follow` carries no
`meta`, so later pages lose the details item, exactly as in the source). -/
def itemAndNext {P : Type} (E : Extractor P) (r : Resp P) : List Out :=
  let it := Out.item (create_smanga_item E r)
  match E.extract_next_page_url r.page with
  | some np =>
    if np.startsWith ("http") then [it, Out.req ⟨np.trim, CB.parse, none, none⟩] else [it]
  | none => [it]

/-- `BaseSpider.parse`: on the first processed page (`sd`, the
`scraped_details` flag, still true) the flag is cleared and, when a truthy
home URL is available, a single retry request is emitted instead of an item. -/
def parseStep {P : Type} (E : Extractor P) (sd : Bool) (r : Resp P) : Bool × List Out :=
  if sd then
    match E.extract_home_url r.page with
    | some home =>
      if home = "" then (false, itemAndNext E r)
      else (false, [Out.req ⟨home, CB.getDetailsAndRetry, none, some r.url⟩])
    | none => (false, itemAndNext E r)
  else (false, itemAndNext E r)

/-- `BaseSpider.get_details_and_retry`: build the details item from the home
page (every field individually optional) and re-request the original page
with the details in `meta`. -/
def getDetailsStep {P : Type} (E : Extractor P) (r : Resp P) : List Out :=
  let det : MangaDetailsI :=
    ⟨E.spiderName, E.extract_manga_name r.page, E.extract_cover r.page,
     E.extract_description r.page, E.extract_genre r.page, E.extract_author r.page,
     E.extract_artist r.page⟩
  match r.metaRetry with
  | some ret => [Out.req ⟨ret, CB.parse, some det, none⟩]
  | none => []

def outItem : Out → Option SMangaItemI
  | Out.item i => some i
  | Out.req _ => none

def outReq : Out → Option Req
  | Out.req r => some r
  | Out.item _ => none

/-- The crawl loop: process the queued requests in order, dispatching on each
request's callback; returns the emitted items and the processed requests,
both in order.  A failed fetch yields no page ("no page" failure semantics)
but the request still counts as processed. -/
def runCrawl {P : Type} (E : Extractor P) (fetch : String → Option P) :
    Nat → Bool → List Req → List SMangaItemI × List Req
  | 0, _, _ => ([], [])
  | _ + 1, _, [] => ([], [])
  | fuel + 1, sd, q :: qs =>
    match fetch q.url with
    | none =>
      let rest := runCrawl E fetch fuel sd qs
      (rest.1, q :: rest.2)
    | some pg =>
      let r : Resp P := ⟨q.url, pg, q.metaDetails, q.metaRetry⟩
      let step : Bool × List Out :=
        match q.cb with
        | CB.parse => parseStep E sd r
        | CB.getDetailsAndRetry => (sd, getDetailsStep E r)
      let rest := runCrawl E fetch fuel step.1 (qs ++ step.2.filterMap outReq)
      (step.2.filterMap outItem ++ rest.1, q :: rest.2)

/-- `start_requests` + the crawl loop: one initial `parse` request for the
starting URL, `scraped_details` initially true. -/
def startCrawl {P : Type} (E : Extractor P) (fetch : String → Option P)
    (url : String) (fuel : Nat) : List SMangaItemI × List Req :=
  runCrawl E fetch fuel true [⟨url, CB.parse, none, none⟩]

theorem runCrawl_nil {P : Type} (E : Extractor P) (fetch : String → Option P) :
    ∀ fuel sd, runCrawl E fetch fuel sd [] = ([], []) := by
  intro fuel sd
  cases fuel <;> rfl

/-- The number of detail-retry requests in a queue. -/
def countRetryQ (qs : List Req) : Nat :=
  (qs.filter fun q => q.cb == CB.getDetailsAndRetry).length

theorem countRetryQ_cons (q : Req) (qs : List Req) :
    countRetryQ (q :: qs) = (if q.cb = CB.getDetailsAndRetry then 1 else 0) + countRetryQ qs := by
  by_cases h : q.cb = CB.getDetailsAndRetry <;>
    simp [countRetryQ, List.filter_cons, h] <;> omega

theorem countRetryQ_append (a b : List Req) :
    countRetryQ (a ++ b) = countRetryQ a + countRetryQ b := by
  simp [countRetryQ, List.filter_append]

theorem countRetryQ_itemAndNext {P : Type} (E : Extractor P) (r : Resp P) :
    countRetryQ ((itemAndNext E r).filterMap outReq) = 0 := by
  unfold itemAndNext
  cases hnp : E.extract_next_page_url r.page with
  | none => simp [outReq, countRetryQ]
  | some np =>
    by_cases hs : np.startsWith ("http") = true <;>
      simp [hs, outReq, countRetryQ, List.filter_cons]

theorem parseStep_retry_budget {P : Type} (E : Extractor P) (sd : Bool) (r : Resp P) :
    (if (parseStep E sd r).1 then 1 else 0) +
      countRetryQ ((parseStep E sd r).2.filterMap outReq) ≤ (if sd then 1 else 0) := by
  unfold parseStep
  cases sd with
  | false => simp [countRetryQ_itemAndNext]
  | true =>
    cases hh : E.extract_home_url r.page with
    | none => simp [countRetryQ_itemAndNext]
    | some home =>
      by_cases he : home = ""
      · simp [he, countRetryQ_itemAndNext]
      · simp [he, outReq, countRetryQ, List.filter_cons]

theorem getDetailsStep_retry_count {P : Type} (E : Extractor P) (r : Resp P) :
    countRetryQ ((getDetailsStep E r).filterMap outReq) = 0 := by
  unfold getDetailsStep
  cases hr : r.metaRetry <;> simp [outReq, countRetryQ, List.filter_cons]

/-- The crawl never processes more detail-retry requests than the
`scraped_details` budget plus what is already queued. -/
theorem runCrawl_retry_bound {P : Type} (E : Extractor P) (fetch : String → Option P) :
    ∀ (fuel : Nat) (sd : Bool) (qs : List Req),
    countRetryQ (runCrawl E fetch fuel sd qs).2 ≤ (if sd then 1 else 0) + countRetryQ qs := by
  intro fuel
  induction fuel with
  | zero => intro sd qs; simp [runCrawl, countRetryQ]
  | succ n ih =>
    intro sd qs
    cases qs with
    | nil => simp [runCrawl, countRetryQ]
    | cons q qs =>
      show countRetryQ (runCrawl E fetch (n + 1) sd (q :: qs)).2 ≤ _
      unfold runCrawl
      cases hpg : fetch q.url with
      | none =>
        have hih := ih sd qs
        simp only [countRetryQ_cons]
        omega
      | some pg =>
        cases hcb : q.cb with
        | parse =>
          have hih := ih (parseStep E sd ⟨q.url, pg, q.metaDetails, q.metaRetry⟩).1
            (qs ++ (parseStep E sd ⟨q.url, pg, q.metaDetails, q.metaRetry⟩).2.filterMap outReq)
          have hbud := parseStep_retry_budget E sd ⟨q.url, pg, q.metaDetails, q.metaRetry⟩
          rw [countRetryQ_append] at hih
          simp only [countRetryQ_cons, hcb]
          split at hih <;> split at hbud <;> split <;> simp_all <;> omega
        | getDetailsAndRetry =>
          have hih := ih sd
            (qs ++ (getDetailsStep E ⟨q.url, pg, q.metaDetails, q.metaRetry⟩).filterMap outReq)
          have hcnt := getDetailsStep_retry_count E ⟨q.url, pg, q.metaDetails, q.metaRetry⟩
          rw [countRetryQ_append, hcnt] at hih
          simp only [countRetryQ_cons, hcb]
          split at hih <;> split <;> simp_all <;> omega

/-- Claim C8: when the extractor offers no home-page URL for the first page
and no usable (http-prefixed) next-page URL, the crawl emits exactly one
chapter record and processes exactly one request, whatever fuel remains. -/
theorem c8_pagination_termination {P : Type} (E : Extractor P) (fetch : String → Option P)
    (u0 : String) (pg0 : P) (fuel : Nat)
    (hfetch : fetch u0 = some pg0)
    (hhome : E.extract_home_url pg0 = none)
    (hnext : ∀ np, E.extract_next_page_url pg0 = some np → np.startsWith ("http") = false) :
    startCrawl E fetch u0 (fuel + 1) =
      ([⟨none, ⟨E.extract_title pg0, E.parse_chapter_image pg0, u0⟩⟩],
       [⟨u0, CB.parse, none, none⟩]) := by
  unfold startCrawl
  simp only [runCrawl, hfetch]
  simp only [parseStep, hhome, itemAndNext, create_smanga_item, create_chapter_item]
  cases hnp : E.extract_next_page_url pg0 with
  | none => simp [outItem, outReq, runCrawl_nil]
  | some np => simp [outItem, outReq, runCrawl_nil, hnext np hnp]

/-- A stub extractor over a trivial page type: no home page, no next page. -/
def noHomeExtractor : Extractor Unit :=
  ⟨"src", fun _ => none, fun _ => none, fun _ => ("T"), fun _ => [],
   fun _ => none, fun _ => none, fun _ => none, fun _ => [], fun _ => none, fun _ => none⟩

theorem c8_witness :
    startCrawl noHomeExtractor (fun _ => some ()) ("http://s") (2 + 1) =
      ([⟨none, ⟨noHomeExtractor.extract_title (), noHomeExtractor.parse_chapter_image (),
          ("http://s")⟩⟩],
       [⟨("http://s"), CB.parse, none, none⟩]) :=
  c8_pagination_termination noHomeExtractor (fun _ => some ()) ("http://s") () 2 rfl rfl
    (fun np h => by exact absurd h (by simp [noHomeExtractor]))

/-- Claim C9, amended: the detail-resolution retry is performed at most once
per crawl (at most one home-page request is ever processed, whatever the
extractor, fetcher, fuel or start URL), and when the home page itself yields
no details the crawl still completes, emitting its chapter record with an
all-empty details item — but the retry costs TWO extra requests, the home
page and a refetch of the original page, not one. -/
theorem c9_detail_retry_amended :
    (∀ (P : Type) (E : Extractor P) (fetch : String → Option P) (url : String) (fuel : Nat),
      countRetryQ (startCrawl E fetch url fuel).2 ≤ 1) ∧
    (∀ (P : Type) (E : Extractor P) (fetch : String → Option P) (u0 h0 : String) (p0 ph : P)
      (fuel : Nat),
      fetch u0 = some p0 → E.extract_home_url p0 = some h0 → ¬ (h0 = "") →
      fetch h0 = some ph →
      E.extract_manga_name ph = none → E.extract_cover ph = none →
      E.extract_description ph = none → E.extract_genre ph = [] →
      E.extract_author ph = none → E.extract_artist ph = none →
      (∀ np, E.extract_next_page_url p0 = some np → np.startsWith ("http") = false) →
      startCrawl E fetch u0 (fuel + 3) =
        ([⟨some ⟨E.spiderName, none, none, none, [], none, none⟩,
           ⟨E.extract_title p0, E.parse_chapter_image p0, u0⟩⟩],
         [⟨u0, CB.parse, none, none⟩,
          ⟨h0, CB.getDetailsAndRetry, none, some u0⟩,
          ⟨u0, CB.parse, some ⟨E.spiderName, none, none, none, [], none, none⟩, none⟩])) := by
  constructor
  · intro P E fetch url fuel
    have h := runCrawl_retry_bound E fetch fuel true [⟨url, CB.parse, none, none⟩]
    have h0 : countRetryQ [(⟨url, CB.parse, none, none⟩ : Req)] = 0 := rfl
    rw [h0] at h
    simpa using h
  · intro P E fetch u0 h0 p0 ph fuel hf0 hhome hne hfh hm hc hd hg ha hart hnext
    unfold startCrawl
    rw [show fuel + 3 = (fuel + 2) + 1 from rfl]
    simp only [runCrawl, hf0]
    simp only [parseStep, hhome, hne, if_false, ite_false, if_neg hne]
    simp only [outReq, outItem, List.filterMap, List.nil_append, List.append_nil]
    rw [show fuel + 2 = (fuel + 1) + 1 from rfl]
    simp only [runCrawl, hfh]
    simp only [getDetailsStep, hm, hc, hd, hg, ha, hart]
    simp only [outReq, outItem, List.filterMap, List.nil_append, List.append_nil]
    simp only [runCrawl, hf0]
    simp only [parseStep, itemAndNext, create_smanga_item, create_chapter_item]
    cases hnp : E.extract_next_page_url p0 with
    | none => simp [outItem, outReq, runCrawl_nil]
    | some np => simp [outItem, outReq, runCrawl_nil, hnext np hnp]

/-- A stub extractor whose first page points at home page and whose home
page yields no details: page `true` is the chapter page, `false` the home. -/
def retryExtractor : Extractor Bool :=
  ⟨"sp", fun pg => if pg then some ("h") else none, fun _ => none, fun _ => ("T"),
   fun _ => [], fun _ => none, fun _ => none, fun _ => none, fun _ => [],
   fun _ => none, fun _ => none⟩

def retryFetch : String → Option Bool :=
  fun s => if s = ("u") then some true else if s = ("h") then some false else none

theorem c9_witness :
    countRetryQ (startCrawl retryExtractor retryFetch ("u") 9).2 ≤ 1 ∧
    startCrawl retryExtractor retryFetch ("u") (0 + 3) =
      ([⟨some ⟨retryExtractor.spiderName, none, none, none, [], none, none⟩,
         ⟨retryExtractor.extract_title true, retryExtractor.parse_chapter_image true, ("u")⟩⟩],
       [⟨("u"), CB.parse, none, none⟩,
        ⟨("h"), CB.getDetailsAndRetry, none, some ("u")⟩,
        ⟨("u"), CB.parse, some ⟨retryExtractor.spiderName, none, none, none, [], none, none⟩,
          none⟩]) :=
  ⟨c9_detail_retry_amended.1 Bool retryExtractor retryFetch ("u") 9,
   c9_detail_retry_amended.2 Bool retryExtractor retryFetch ("u") ("h") true false 0
     (by decide) rfl (by decide) (by decide) rfl rfl rfl rfl rfl rfl
     (fun np h => by exact absurd h (by simp [retryExtractor]))⟩

/-- Claim C9, counterexample: in the home-retry scenario the crawl emits one
chapter record but processes three requests — the chapter page, the home
page, and the chapter page again — i.e. two extra fetches, not at most one. -/
theorem c9_extra_fetch_counterexample :
    (startCrawl retryExtractor retryFetch ("u") 9).1.length = 1 ∧
    (startCrawl retryExtractor retryFetch ("u") 9).2.length = 3 ∧
    ¬ ((startCrawl retryExtractor retryFetch ("u") 9).2.length ≤
        1 + (startCrawl retryExtractor retryFetch ("u") 9).1.length) := by
  refine ⟨by decide, by decide, by decide⟩

/-! ## The payload decoder (`SManga/lib/cryptoaes/cryptoaes.py` and the
Madara theme's protector handling, `SManga/lib/themes/madara/Madara.py`)

Bytes are `Nat`s below 256.  Strings convert to bytes by code points,
modelling the ASCII fragment of UTF-8 (`password.encode("utf-8")`,
`decrypted.decode("utf-8")`) — the fragment every theorem below stays in.
The MD5 digest function and the keyed AES-256 block maps are abstract
parameters; the key-derivation loop, CBC chaining, PKCS#7 padding, base64
and the JSON layers are concrete. -/

def strBytes (s : String) : List Nat := s.data.map Char.toNat

/-- `bytes.decode("utf-8")`, restricted to the ASCII fragment of the model;
non-ASCII bytes are outside the model's scope and yield an error. -/
def utf8Decode (bs : List Nat) : Except String String :=
  if bs.all (fun b => b < 128) then .ok (String.mk (bs.map Char.ofNat))
  else .error ("utf8Decode: byte outside the ASCII fragment of the model")

/-! ### `CryptoAES._generate_key_and_iv` (cryptoaes.py lines 20-26) -/

/-- The `while len(d) < key_length + iv_length` loop; `fuel` bounds the
unbounded Python loop (the theorems show the bound is never reached for
positive digest sizes). -/
def kdfLoop (hash : List Nat → List Nat) (pw salt : List Nat) (tgt : Nat) :
    Nat → List Nat → List Nat → List Nat
  | 0, d, _ => d
  | fuel + 1, d, di =>
    if d.length < tgt then
      let di2 := hash (di ++ pw ++ salt)
      kdfLoop hash pw salt tgt fuel (d ++ di2) di2
    else d

def generate_key_and_iv (hash : List Nat → List Nat) (pw salt : List Nat)
    (key_length iv_length : Nat) : List Nat × List Nat :=
  let d := kdfLoop hash pw salt (key_length + iv_length) (key_length + iv_length + 1) [] []
  (d.take key_length, (d.drop key_length).take iv_length)

/-! ### base64 (`base64.b64encode` / `base64.b64decode`, default
`validate=False`: characters outside the alphabet are discarded, and a
remaining length that is not a multiple of four raises `binascii.Error`) -/

def b64Alphabet : List Char :=
  ("ABCDEFGHIJKLMNOPQRSTUVWXYZabcdefghijklmnopqrstuvwxyz0123456789+/").data

def sextetChar (n : Nat) : Char := b64Alphabet.getD n 'A'

def charSextet (c : Char) : Option Nat := b64Alphabet.findIdx? (fun x => x == c)

def b64Encode : List Nat → List Char
  | [] => []
  | [a] => [sextetChar (a / 4), sextetChar (a % 4 * 16), '=', '=']
  | [a, b] => [sextetChar (a / 4), sextetChar (a % 4 * 16 + b / 16), sextetChar (b % 16 * 4), '=']
  | a :: b :: c :: rest =>
    sextetChar (a / 4) :: sextetChar (a % 4 * 16 + b / 16) ::
      sextetChar (b % 16 * 4 + c / 64) :: sextetChar (c % 64) :: b64Encode rest

def b64Group (c1 c2 c3 c4 : Char) : Option (List Nat) :=
  match charSextet c1, charSextet c2, charSextet c3, charSextet c4 with
  | some s1, some s2, some s3, some s4 =>
    some [s1 * 4 + s2 / 16, s2 % 16 * 16 + s3 / 4, s3 % 4 * 64 + s4]
  | _, _, _, _ => none

def b64DecodeCore : List Char → Except String (List Nat)
  | [] => .ok []
  | c1 :: c2 :: c3 :: c4 :: rest =>
    if c3 = '=' ∧ c4 = '=' ∧ rest = [] then
      match charSextet c1, charSextet c2 with
      | some s1, some s2 => .ok [s1 * 4 + s2 / 16]
      | _, _ => .error ("Invalid base64-encoded string")
    else if c4 = '=' ∧ rest = [] then
      match charSextet c1, charSextet c2, charSextet c3 with
      | some s1, some s2, some s3 => .ok [s1 * 4 + s2 / 16, s2 % 16 * 16 + s3 / 4]
      | _, _, _ => .error ("Invalid base64-encoded string")
    else
      match b64Group c1 c2 c3 c4 with
      | some bs => do
        let rest2 ← b64DecodeCore rest
        .ok (bs ++ rest2)
      | none => .error ("Invalid base64-encoded string")
  | _ => .error ("Invalid base64-encoded string: length not a multiple of 4")

def b64Decode (cs : List Char) : Except String (List Nat) :=
  b64DecodeCore (cs.filter (fun c => b64Alphabet.contains c || c == '='))

/-! ### PKCS#7 (`Crypto.Util.Padding.unpad`, and its inverse for the
round-trip harness) -/

def pkcs7Pad (blk : Nat) (bs : List Nat) : List Nat :=
  let padLen := blk - bs.length % blk
  bs ++ List.replicate padLen padLen

def pkcs7Unpad (blk : Nat) (bs : List Nat) : Except String (List Nat) :=
  if bs.length % blk ≠ 0 then .error ("Input data is not padded")
  else
    match bs.getLast? with
    | none => .error ("Zero-length input cannot be unpadded")
    | some p =>
      if p < 1 ∨ p > min blk bs.length then .error ("Padding is incorrect.")
      else if bs.drop (bs.length - p) ≠ List.replicate p p then
        .error ("PKCS#7 padding is incorrect.")
      else .ok (bs.take (bs.length - p))

/-! ### CBC mode over an abstract 16-byte block map -/

def chunks16 (bs : List Nat) : List (List Nat) :=
  match bs with
  | [] => []
  | b :: rest => ((b :: rest).take 16) :: chunks16 ((b :: rest).drop 16)
termination_by bs.length
decreasing_by simp [List.length_drop]; omega

def xorBytes (a b : List Nat) : List Nat := List.zipWith (fun x y => x ^^^ y) a b

def cbcEncrypt (enc : List Nat → List Nat) : List Nat → List (List Nat) → List (List Nat)
  | _, [] => []
  | iv, p :: ps =>
    let c := enc (xorBytes p iv)
    c :: cbcEncrypt enc c ps

def cbcDecrypt (dec : List Nat → List Nat) : List Nat → List (List Nat) → List (List Nat)
  | _, [] => []
  | iv, c :: cs => xorBytes (dec c) iv :: cbcDecrypt dec c cs

/-! ### `CryptoAES.decrypt` (cryptoaes.py lines 9-18) -/

/-- `CryptoAES.decrypt`: base64-decode the payload, slice salt (bytes 8..16)
and body (bytes 16..), derive key and IV from the password and salt,
CBC-decrypt the body with the keyed block map `dec` (pycryptodome rejects a
body that is not a multiple of the block size), strip PKCS#7 padding and
decode UTF-8.  `hash` abstracts `hashlib.md5`, `dec` the keyed AES-256 block
decryption. -/
def CryptoAES_decrypt (hash : List Nat → List Nat) (dec : List Nat → List Nat → List Nat)
    (ciphertext : List Char) (password : String) : Except String String := do
  let ct_bytes ← b64Decode ciphertext
  if (ct_bytes.drop 16).length % 16 ≠ 0 then
    .error ("Data must be padded to 16 byte boundary in CBC mode")
  else do
    let un ← pkcs7Unpad 16
      ((cbcDecrypt
          (dec (generate_key_and_iv hash (strBytes password)
            ((ct_bytes.drop 8).take 8) 32 16).1)
          (generate_key_and_iv hash (strBytes password)
            ((ct_bytes.drop 8).take 8) 32 16).2
          (chunks16 (ct_bytes.drop 16))).flatten)
    utf8Decode un

/-! ### A small JSON model (`json.loads` over the strings/arrays/objects
fragment the decoder meets) -/

inductive JVal where
  | jstr : String → JVal
  | jarr : List JVal → JVal
  | jobj : List (String × JVal) → JVal
deriving Repr, Inhabited

def isWs (c : Char) : Bool := c = ' ' || c = '\n' || c = '\t' || c = '\r'

def skipWs : List Char → List Char
  | [] => []
  | c :: cs => if isWs c then skipWs cs else c :: cs

def escCharE : Char → Except String Char
  | '"' => .ok '"'
  | '\\' => .ok '\\'
  | '/' => .ok '/'
  | 'n' => .ok '\n'
  | 't' => .ok '\t'
  | 'r' => .ok '\r'
  | _ => .error ("Invalid escape")

/-- Parse the body of a string literal after the opening quote; returns the
decoded characters and the input after the closing quote. -/
def parseStrBody : List Char → Except String (List Char × List Char)
  | [] => .error ("Unterminated string")
  | c :: rest =>
    if c = '"' then .ok ([], rest)
    else if c = '\\' then
      match rest with
      | [] => .error ("Unterminated string")
      | e :: rest2 =>
        Except.bind (escCharE e)
          (fun d => (parseStrBody rest2).map (fun sr => (d :: sr.1, sr.2)))
    else (parseStrBody rest).map (fun sr => (c :: sr.1, sr.2))

mutual

def parseVal : Nat → List Char → Except String (JVal × List Char)
  | 0, _ => .error ("Value nesting exceeds the parser fuel")
  | fuel + 1, cs =>
    match skipWs cs with
    | '"' :: rest => (parseStrBody rest).map (fun sr => (JVal.jstr (String.mk sr.1), sr.2))
    | '[' :: rest =>
      (match skipWs rest with
        | ']' :: r => .ok (JVal.jarr [], r)
        | _ => (parseElems fuel rest).map (fun vr => (JVal.jarr vr.1, vr.2)))
    | '\x7b' :: rest =>
      (match skipWs rest with
        | '\x7d' :: r => .ok (JVal.jobj [], r)
        | _ => (parseMembers fuel rest).map (fun mr => (JVal.jobj mr.1, mr.2)))
    | _ => .error ("Expecting value")

def parseElems : Nat → List Char → Except String (List JVal × List Char)
  | 0, _ => .error ("Array nesting exceeds the parser fuel")
  | fuel + 1, cs => do
    let (v, r) ← parseVal fuel cs
    match skipWs r with
    | ',' :: r2 => (parseElems fuel r2).map (fun vr => (v :: vr.1, vr.2))
    | ']' :: r2 => .ok ([v], r2)
    | _ => .error ("Expecting comma or end of array")

def parseMembers : Nat → List Char → Except String (List (String × JVal) × List Char)
  | 0, _ => .error ("Object nesting exceeds the parser fuel")
  | fuel + 1, cs =>
    match skipWs cs with
    | '"' :: rest => do
      let (k, r) ← parseStrBody rest
      match skipWs r with
      | ':' :: r2 => do
        let (v, r3) ← parseVal fuel r2
        match skipWs r3 with
        | ',' :: r4 => (parseMembers fuel r4).map (fun mr => ((String.mk k, v) :: mr.1, mr.2))
        | '\x7d' :: r4 => .ok ([(String.mk k, v)], r4)
        | _ => .error ("Expecting comma or end of object")
      | _ => .error ("Expecting colon")
    | _ => .error ("Expecting property name")

end

/-- `json.loads`: parse one value, then require only whitespace to remain. -/
def jsonParse (s : String) : Except String JVal := do
  let (v, rest) ← parseVal (s.length + 8) s.data
  if skipWs rest = [] then .ok v else .error ("Extra data")

/-- The tail of `Madara.parse_protector_image`: one `json.loads` applied to
the decrypted plaintext.  Together with `CryptoAES_decrypt` this is the
payload decoder the spec describes for a bare payload + password. -/
def payloadDecode (hash : List Nat → List Nat) (dec : List Nat → List Nat → List Nat)
    (payload : List Char) (password : String) : Except String JVal := do
  let txt ← CryptoAES_decrypt hash dec payload password
  jsonParse txt

/-- Modelled from the spec: section 4.2 step 4 claims "the padding-stripped
plaintext is itself a JSON-encoded string which, once parsed, is a
JSON-encoded array of URL strings — two levels of JSON decoding are
required".  This decoder applies those two levels to the plaintext; the
source applies only one (`json.loads(decrypted_text)` in
`parse_protector_image`).  It exists to be compared with `payloadDecode`. -/
def payloadDecodeTwoLevel (hash : List Nat → List Nat)
    (dec : List Nat → List Nat → List Nat) (payload : List Char) (password : String) :
    Except String JVal := do
  let txt ← CryptoAES_decrypt hash dec payload password
  let v1 ← jsonParse txt
  match v1 with
  | JVal.jstr inner => jsonParse inner
  | _ => .error ("spec step 4: plaintext is not a JSON-encoded string")

/-- The encryption procedure of claim C5, stated in its own words: derive
key and IV with the iterated-hash KDF, PKCS-pad the plaintext, encrypt in
CBC mode with the keyed block map `enc`, and emit the base64 of
8-byte magic marker, 8-byte salt and ciphertext. -/
def specEncrypt (hash : List Nat → List Nat) (enc : List Nat → List Nat → List Nat)
    (password : String) (salt : List Nat) (plaintext : String) : List Char :=
  b64Encode (strBytes ("Salted__") ++ salt ++
    (cbcEncrypt (enc (generate_key_and_iv hash (strBytes password) salt 32 16).1)
      (generate_key_and_iv hash (strBytes password) salt 32 16).2
      (chunks16 (pkcs7Pad 16 (strBytes plaintext)))).flatten)

/-- JSON text of a string literal, escaping quote and backslash (the two
escapes `json.dumps` always produces for the URL strings of the claims). -/
def jsonEncStr (s : String) : List Char := jsonStrLit s

/-- JSON text of a two-element array of strings — the plaintext shape of
claim C5. -/
def encArr2 (u1 u2 : String) : String :=
  String.mk ('[' :: jsonEncStr u1 ++ ',' :: jsonEncStr u2 ++ [']'])

/-! ### The Madara protector path (`Madara.py` lines 43-85) -/

namespace Madara

/-- What the Madara selectors deliver for one chapter page: the direct image
list (`get_images_from_page`) and the protector element
(`get_protector_data`), `none` when the selector matches nothing. -/
structure Page where
  directImages : List String
  protectorData : Option String

/-- The suffix of `s` after the first occurrence of `pat`; `none` when `pat`
does not occur (the `re.search(...)` returning `None`). -/
def findAfter (pat : List Char) : List Char → Option (List Char)
  | [] => if pat = [] then some [] else none
  | c :: cs =>
    if pat.isPrefixOf (c :: cs) then some ((c :: cs).drop pat.length)
    else findAfter pat cs

/-- The characters before the first occurrence of `pat` (the non-greedy
capture group), `none` when `pat` never occurs. -/
def takeUntil (pat : List Char) : List Char → Option (List Char)
  | [] => none
  | c :: cs =>
    if pat.isPrefixOf (c :: cs) then some []
    else (takeUntil pat cs).map (fun r => c :: r)

/-- `str.replace`, specialised to the source's
`.replace("\\/", "/")` (left-to-right, non-overlapping). -/
def replaceBS : List Char → List Char
  | '\\' :: '/' :: rest => '/' :: replaceBS rest
  | c :: rest => c :: replaceBS rest
  | [] => []

/-- `re.search(r"wpmangaprotectornonce='(.*?)';", ...).group(1)`;
`none` models the `AttributeError` raised when the pattern is absent. -/
def get_password_from_protector (pd : List Char) : Option (List Char) :=
  (findAfter ("wpmangaprotectornonce='").data pd).bind (takeUntil ("';").data)

/-- `re.search(r"chapter_data='(.*?)';", ...).group(1).replace("\\/", "/")`. -/
def get_chapter_data_str (pd : List Char) : Option (List Char) :=
  ((findAfter ("chapter_data='").data pd).bind (takeUntil ("';").data)).map replaceBS

def hexVal (c : Char) : Option Nat :=
  if '0' ≤ c ∧ c ≤ '9' then some (c.toNat - 48)
  else if 'a' ≤ c ∧ c ≤ 'f' then some (c.toNat - 87)
  else if 'A' ≤ c ∧ c ≤ 'F' then some (c.toNat - 55)
  else none

/-- `bytes.fromhex`. -/
def hexDecode : List Char → Except String (List Nat)
  | [] => .ok []
  | [_] => .error ("non-hexadecimal number found in fromhex")
  | c1 :: c2 :: rest =>
    match hexVal c1, hexVal c2 with
    | some h1, some h2 => (hexDecode rest).map (fun r => (h1 * 16 + h2) :: r)
    | _, _ => .error ("non-hexadecimal number found in fromhex")

/-- `chapter_data["s"]` / `chapter_data["ct"]`: a `KeyError` or a wrong shape
becomes an error. -/
def jLookupStr (v : JVal) (k : String) : Except String String :=
  match v with
  | JVal.jobj ms =>
    (match ms.lookup k with
      | some (JVal.jstr s) => .ok s
      | some _ => .error ("value is not a string")
      | none => .error ("KeyError"))
  | _ => .error ("chapter_data is not an object")

/-- `Madara.decrypt_chapter_data`: parse the protector envelope, hex-decode
the salt, base64-decode the ciphertext, reassemble
`b"Salted__" + salt + ciphertext`, base64 it and hand it to
`CryptoAES.decrypt`. -/
def decrypt_chapter_data (hash : List Nat → List Nat)
    (dec : List Nat → List Nat → List Nat) (cds : List Char) (pw : List Char) :
    Except String String := do
  let j ← jsonParse (String.mk cds)
  let sHex ← jLookupStr j ("s")
  let ctB64 ← jLookupStr j ("ct")
  let salt ← hexDecode sHex.data
  let unsalted ← b64Decode ctB64.data
  let ciphertext := strBytes ("Salted__") ++ salt ++ unsalted
  CryptoAES_decrypt hash dec (b64Encode ciphertext) (String.mk pw)

/-- `Madara.parse_protector_image`: a falsy protector element yields the
empty list; otherwise the nonce and envelope are extracted by regex (a miss
raises, modelled as an error), decrypted and JSON-decoded once. -/
def parse_protector_image (hash : List Nat → List Nat)
    (dec : List Nat → List Nat → List Nat) (pg : Page) : Except String JVal :=
  match pg.protectorData with
  | none => .ok (JVal.jarr [])
  | some pd =>
    if pd = "" then .ok (JVal.jarr []) else
    match get_password_from_protector pd.data with
    | none => .error ("AttributeError: NoneType has no attribute group")
    | some pw =>
      match get_chapter_data_str pd.data with
      | none => .error ("AttributeError: NoneType has no attribute group")
      | some cds => do
        let txt ← decrypt_chapter_data hash dec cds pw
        jsonParse txt

/-- `Madara.parse_chapter_image`: direct images win; an empty direct list
falls back to the protector payload. -/
def parse_chapter_image (hash : List Nat → List Nat)
    (dec : List Nat → List Nat → List Nat) (pg : Page) : Except String JVal :=
  if pg.directImages ≠ [] then .ok (JVal.jarr (pg.directImages.map JVal.jstr))
  else parse_protector_image hash dec pg

end Madara

/-! ### The key-derivation loop resolved for 16-byte digests (MD5) -/

theorem kdfLoop_step (hash : List Nat → List Nat) (pw salt : List Nat) (tgt fuel : Nat)
    (d di : List Nat) (h : d.length < tgt) :
    kdfLoop hash pw salt tgt (fuel + 1) d di =
      kdfLoop hash pw salt tgt fuel (d ++ hash (di ++ pw ++ salt)) (hash (di ++ pw ++ salt)) := by
  simp [kdfLoop, h]

theorem kdfLoop_stop (hash : List Nat → List Nat) (pw salt : List Nat) (tgt fuel : Nat)
    (d di : List Nat) (h : ¬ d.length < tgt) :
    kdfLoop hash pw salt tgt (fuel + 1) d di = d := by
  simp [kdfLoop, h]

/-- With 16-byte digests the loop runs exactly three times and the key/IV
split falls on digest boundaries. -/
theorem kdf_three_digests (hash : List Nat → List Nat) (pw salt : List Nat)
    (hLen : ∀ x, (hash x).length = 16) :
    generate_key_and_iv hash pw salt 32 16 =
      (hash (pw ++ salt) ++ hash (hash (pw ++ salt) ++ pw ++ salt),
       hash (hash (hash (pw ++ salt) ++ pw ++ salt) ++ pw ++ salt)) := by
  unfold generate_key_and_iv
  rw [show (32 + 16 + 1 : Nat) = 48 + 1 from rfl]
  rw [kdfLoop_step hash pw salt _ _ _ _ (by simp)]
  rw [show (48 : Nat) = 47 + 1 from rfl]
  rw [kdfLoop_step hash pw salt _ _ _ _ (by simp [hLen])]
  rw [show (47 : Nat) = 46 + 1 from rfl]
  rw [kdfLoop_step hash pw salt _ _ _ _ (by simp [hLen])]
  rw [show (46 : Nat) = 45 + 1 from rfl]
  rw [kdfLoop_stop hash pw salt _ _ _ _ (by simp [hLen])]
  simp only [List.nil_append]
  have h12 : (hash (pw ++ salt) ++ hash (hash (pw ++ salt) ++ pw ++ salt)).length = 32 := by
    simp [hLen]
  rw [List.take_left' h12, List.drop_left' h12,
    List.take_of_length_le (le_of_eq (hLen _))]

/-- Claim C4: for every password and 8-byte salt, with a 16-byte digest
function (MD5) the derivation computes digest one from password and salt,
chains each further digest over the previous one, and returns the first 32
bytes (digests one and two) as the key and the next 16 (digest three) as the
IV. -/
theorem c4_key_derivation (hash : List Nat → List Nat) (pw salt : List Nat)
    (hLen : ∀ x, (hash x).length = 16) (hsalt : salt.length = 8) :
    generate_key_and_iv hash pw salt 32 16 =
      (hash (pw ++ salt) ++ hash (hash (pw ++ salt) ++ pw ++ salt),
       hash (hash (hash (pw ++ salt) ++ pw ++ salt) ++ pw ++ salt)) ∧
    (generate_key_and_iv hash pw salt 32 16).1.length = 32 ∧
    (generate_key_and_iv hash pw salt 32 16).2.length = 16 := by
  have h := kdf_three_digests hash pw salt hLen
  refine ⟨h, ?_, ?_⟩ <;> rw [h] <;> simp [hLen]

theorem c4_witness :
    generate_key_and_iv (fun _ => List.replicate 16 0) (strBytes ("p")) [1, 2, 3, 4, 5, 6, 7, 8] 32 16 =
      ((fun (_ : List Nat) => List.replicate 16 0) (strBytes ("p") ++ [1, 2, 3, 4, 5, 6, 7, 8]) ++
        (fun (_ : List Nat) => List.replicate 16 0) ((fun (_ : List Nat) => List.replicate 16 0) (strBytes ("p") ++ [1, 2, 3, 4, 5, 6, 7, 8]) ++ strBytes ("p") ++ [1, 2, 3, 4, 5, 6, 7, 8]),
       (fun (_ : List Nat) => List.replicate 16 0) ((fun (_ : List Nat) => List.replicate 16 0) ((fun (_ : List Nat) => List.replicate 16 0) (strBytes ("p") ++ [1, 2, 3, 4, 5, 6, 7, 8]) ++ strBytes ("p") ++ [1, 2, 3, 4, 5, 6, 7, 8]) ++ strBytes ("p") ++ [1, 2, 3, 4, 5, 6, 7, 8])) ∧
    (generate_key_and_iv (fun _ => List.replicate 16 0) (strBytes ("p")) [1, 2, 3, 4, 5, 6, 7, 8] 32 16).1.length = 32 ∧
    (generate_key_and_iv (fun _ => List.replicate 16 0) (strBytes ("p")) [1, 2, 3, 4, 5, 6, 7, 8] 32 16).2.length = 16 :=
  c4_key_derivation (fun _ => List.replicate 16 0) (strBytes ("p")) [1, 2, 3, 4, 5, 6, 7, 8]
    (fun _ => by simp) rfl

/-! ### base64 round trip -/

theorem charSextet_sextetChar : ∀ n, n < 64 → charSextet (sextetChar n) = some n := by decide

theorem sextetChar_allowed : ∀ n, n < 64 →
    (b64Alphabet.contains (sextetChar n) || (sextetChar n == '=')) = true := by decide

theorem sextetChar_ne_pad : ∀ n, n < 64 → ¬ (sextetChar n = '=') := by decide

theorem b64Encode_mem_allowed (bs : List Nat) (hb : ∀ b ∈ bs, b < 256) :
    ∀ c ∈ b64Encode bs, (b64Alphabet.contains c || (c == '=')) = true := by
  induction bs using b64Encode.induct with
  | case1 => intro c hc; simp [b64Encode] at hc
  | case2 a =>
    have ha : a < 256 := hb a (by simp)
    intro c hc
    simp [b64Encode] at hc
    rcases hc with rfl | rfl | rfl
    · exact sextetChar_allowed _ (by omega)
    · exact sextetChar_allowed _ (by omega)
    · decide
  | case3 a b =>
    have ha : a < 256 := hb a (by simp)
    have hbb : b < 256 := hb b (by simp)
    intro c hc
    simp [b64Encode] at hc
    rcases hc with rfl | rfl | rfl | rfl
    · exact sextetChar_allowed _ (by omega)
    · exact sextetChar_allowed _ (by omega)
    · exact sextetChar_allowed _ (by omega)
    · decide
  | case4 a b c rest ih =>
    have ha : a < 256 := hb a (by simp)
    have hbb : b < 256 := hb b (by simp)
    have hcc : c < 256 := hb c (by simp)
    have hrest : ∀ x ∈ rest, x < 256 := fun x hx => hb x (by simp [hx])
    intro x hx
    simp only [b64Encode, List.mem_cons] at hx
    rcases hx with rfl | rfl | rfl | rfl | hx
    · exact sextetChar_allowed _ (by omega)
    · exact sextetChar_allowed _ (by omega)
    · exact sextetChar_allowed _ (by omega)
    · exact sextetChar_allowed _ (by omega)
    · exact ih hrest x hx

theorem b64DecodeCore_encode (bs : List Nat) (hb : ∀ b ∈ bs, b < 256) :
    b64DecodeCore (b64Encode bs) = .ok bs := by
  induction bs using b64Encode.induct with
  | case1 => rfl
  | case2 a =>
    have ha : a < 256 := hb a (by simp)
    have i1 := charSextet_sextetChar (a / 4) (by omega)
    have i2 := charSextet_sextetChar (a % 4 * 16) (by omega)
    have e0 : a / 4 * 4 + a % 4 * 16 / 16 = a := by omega
    simp [b64Encode, b64DecodeCore, i1, i2, e0]
    omega
  | case3 a b =>
    have ha : a < 256 := hb a (by simp)
    have hbb : b < 256 := hb b (by simp)
    have i1 := charSextet_sextetChar (a / 4) (by omega)
    have i2 := charSextet_sextetChar (a % 4 * 16 + b / 16) (by omega)
    have i3 := charSextet_sextetChar (b % 16 * 4) (by omega)
    have hne := sextetChar_ne_pad (b % 16 * 4) (by omega)
    have e1 : a / 4 * 4 + (a % 4 * 16 + b / 16) / 16 = a := by omega
    have e2 : (a % 4 * 16 + b / 16) % 16 * 16 + b % 16 * 4 / 4 = b := by omega
    simp [b64Encode, b64DecodeCore, i1, i2, i3, hne, e1, e2]
    omega
  | case4 a b c rest ih =>
    have ha : a < 256 := hb a (by simp)
    have hbb : b < 256 := hb b (by simp)
    have hcc : c < 256 := hb c (by simp)
    have hrest : ∀ x ∈ rest, x < 256 := fun x hx => hb x (by simp [hx])
    have i1 := charSextet_sextetChar (a / 4) (by omega)
    have i2 := charSextet_sextetChar (a % 4 * 16 + b / 16) (by omega)
    have i3 := charSextet_sextetChar (b % 16 * 4 + c / 64) (by omega)
    have i4 := charSextet_sextetChar (c % 64) (by omega)
    have hne3 := sextetChar_ne_pad (b % 16 * 4 + c / 64) (by omega)
    have hne4 := sextetChar_ne_pad (c % 64) (by omega)
    have e1 : a / 4 * 4 + (a % 4 * 16 + b / 16) / 16 = a := by omega
    have e2 : (a % 4 * 16 + b / 16) % 16 * 16 + (b % 16 * 4 + c / 64) / 4 = b := by omega
    have e3 : (b % 16 * 4 + c / 64) % 4 * 64 + c % 64 = c := by omega
    simp [b64Encode, b64DecodeCore, b64Group, i1, i2, i3, i4, hne3, hne4, e1, e2, e3,
      ih hrest]
    rfl

theorem b64Decode_encode (bs : List Nat) (hb : ∀ b ∈ bs, b < 256) :
    b64Decode (b64Encode bs) = .ok bs := by
  unfold b64Decode
  rw [List.filter_eq_self.mpr (b64Encode_mem_allowed bs hb)]
  exact b64DecodeCore_encode bs hb

/-! ### PKCS#7, chunking, xor and CBC round trips -/

theorem pkcs7_unpad_pad (bs : List Nat) : pkcs7Unpad 16 (pkcs7Pad 16 bs) = .ok bs := by
  unfold pkcs7Pad pkcs7Unpad
  have hp1 : 1 ≤ 16 - bs.length % 16 := by omega
  have hp16 : 16 - bs.length % 16 ≤ 16 := by omega
  have hlen : (bs ++ List.replicate (16 - bs.length % 16) (16 - bs.length % 16)).length =
      bs.length + (16 - bs.length % 16) := by simp
  have hmod : (bs.length + (16 - bs.length % 16)) % 16 = 0 := by omega
  rw [if_neg (by simp only [hlen]; omega)]
  have hg : (bs ++ List.replicate (16 - bs.length % 16) (16 - bs.length % 16)).getLast? =
      some (16 - bs.length % 16) := by
    rw [List.getLast?_append, List.getLast?_replicate]
    have : ¬ (16 - bs.length % 16 = 0) := by omega
    simp [this]
  simp only [hg]
  rw [if_neg (by simp only [hlen]; omega)]
  have hdrop : (bs ++ List.replicate (16 - bs.length % 16) (16 - bs.length % 16)).length -
      (16 - bs.length % 16) = bs.length := by simp only [hlen]; omega
  rw [hdrop, List.drop_left, List.take_left]
  simp

theorem chunks16_flatten_eq (bs : List Nat) : (chunks16 bs).flatten = bs := by
  induction bs using chunks16.induct with
  | case1 => simp [chunks16]
  | case2 b rest ih =>
    rw [chunks16]
    simp only [List.flatten_cons, ih, List.take_append_drop]

theorem chunks16_blocks_len (bs : List Nat) :
    bs.length % 16 = 0 → ∀ blk ∈ chunks16 bs, blk.length = 16 := by
  induction bs using chunks16.induct with
  | case1 => intro _ blk hblk; simp [chunks16] at hblk
  | case2 b rest ih =>
    intro h blk hblk
    have hge : 16 ≤ (b :: rest).length := by
      have hpos : 0 < (b :: rest).length := by simp
      by_contra hc
      push_neg at hc
      rw [Nat.mod_eq_of_lt hc] at h
      omega
    rw [chunks16] at hblk
    rcases List.mem_cons.mp hblk with rfl | hblk
    · have ht : ((b :: rest).take 16).length = min 16 (b :: rest).length := by
        rw [List.length_take]
      omega
    · refine ih ?_ blk hblk
      have hd : ((b :: rest).drop 16).length = (b :: rest).length - 16 := by simp
      omega

theorem chunks16_of_flatten (blocks : List (List Nat)) (h : ∀ b ∈ blocks, b.length = 16) :
    chunks16 blocks.flatten = blocks := by
  induction blocks with
  | nil => simp [chunks16]
  | cons b bs ih =>
    have hb : b.length = 16 := h b (by simp)
    have hrest : ∀ x ∈ bs, x.length = 16 := fun x hx => h x (by simp [hx])
    cases b with
    | nil => simp at hb
    | cons x xs =>
      show chunks16 ((x :: xs) ++ bs.flatten) = (x :: xs) :: bs
      rw [List.cons_append, chunks16, ← List.cons_append,
        List.take_left' hb, List.drop_left' hb, ih hrest]

theorem flatten_blocks_mod (blocks : List (List Nat)) (h : ∀ b ∈ blocks, b.length = 16) :
    blocks.flatten.length % 16 = 0 := by
  induction blocks with
  | nil => simp
  | cons b bs ih =>
    have hb : b.length = 16 := h b (by simp)
    have := ih (fun x hx => h x (by simp [hx]))
    simp only [List.flatten_cons, List.length_append, hb]
    omega

theorem flatten_blocks_lt (blocks : List (List Nat)) (h : ∀ b ∈ blocks, ∀ x ∈ b, x < 256) :
    ∀ x ∈ blocks.flatten, x < 256 := by
  intro x hx
  rcases List.mem_flatten.mp hx with ⟨b, hb, hxb⟩
  exact h b hb x hxb

theorem xorBytes_length (a b : List Nat) : (xorBytes a b).length = min a.length b.length := by
  simp [xorBytes]

theorem xorBytes_cancel (a b : List Nat) (h : a.length = b.length) :
    xorBytes (xorBytes a b) b = a := by
  induction a generalizing b with
  | nil => cases b <;> simp [xorBytes]
  | cons x xs ih =>
    cases b with
    | nil => simp at h
    | cons y ys =>
      simp only [xorBytes, List.zipWith_cons_cons]
      rw [Nat.xor_cancel_right]
      have := ih ys (by simpa using h)
      simp only [xorBytes] at this
      rw [this]

theorem xorBytes_lt (a b : List Nat) (ha : ∀ x ∈ a, x < 256) (hb : ∀ x ∈ b, x < 256) :
    ∀ x ∈ xorBytes a b, x < 256 := by
  induction a generalizing b with
  | nil => intro x hx; simp [xorBytes] at hx
  | cons p ps ih =>
    intro x hx
    cases b with
    | nil => simp [xorBytes] at hx
    | cons q qs =>
      simp only [xorBytes, List.zipWith_cons_cons, List.mem_cons] at hx
      rcases hx with rfl | hx
      · have h1 : p < 2 ^ 8 := ha p (by simp)
        have h2 : q < 2 ^ 8 := hb q (by simp)
        exact Nat.xor_lt_two_pow h1 h2
      · exact ih qs (fun y hy => ha y (by simp [hy])) (fun y hy => hb y (by simp [hy])) x hx

/-- CBC decryption inverts CBC encryption, block by block, for any keyed
block map that is length-preserving and inverted by its counterpart. -/
theorem cbc_roundtrip (enc dec : List Nat → List Nat)
    (hinv : ∀ b, b.length = 16 → dec (enc b) = b)
    (hlen : ∀ b, b.length = 16 → (enc b).length = 16) :
    ∀ (ps : List (List Nat)) (iv : List Nat), iv.length = 16 → (∀ p ∈ ps, p.length = 16) →
    cbcDecrypt dec iv (cbcEncrypt enc iv ps) = ps := by
  intro ps
  induction ps with
  | nil => intro iv _ _; rfl
  | cons p ps ih =>
    intro iv hiv hps
    have hp : p.length = 16 := hps p (by simp)
    have hxlen : (xorBytes p iv).length = 16 := by
      rw [xorBytes_length, hp, hiv]; omega
    simp only [cbcEncrypt, cbcDecrypt]
    rw [hinv _ hxlen, xorBytes_cancel p iv (hp.trans hiv.symm),
      ih (enc (xorBytes p iv)) (hlen _ hxlen) (fun q hq => hps q (by simp [hq]))]

theorem cbcEncrypt_blocks_len (enc : List Nat → List Nat)
    (hlen : ∀ b, b.length = 16 → (enc b).length = 16) :
    ∀ (ps : List (List Nat)) (iv : List Nat), iv.length = 16 → (∀ p ∈ ps, p.length = 16) →
    ∀ c ∈ cbcEncrypt enc iv ps, c.length = 16 := by
  intro ps
  induction ps with
  | nil => intro iv _ _ c hc; simp [cbcEncrypt] at hc
  | cons p ps ih =>
    intro iv hiv hps c hc
    have hp : p.length = 16 := hps p (by simp)
    have hxlen : (xorBytes p iv).length = 16 := by rw [xorBytes_length, hp, hiv]; omega
    simp only [cbcEncrypt, List.mem_cons] at hc
    rcases hc with rfl | hc
    · exact hlen _ hxlen
    · exact ih (enc (xorBytes p iv)) (hlen _ hxlen) (fun q hq => hps q (by simp [hq])) c hc

theorem cbcEncrypt_blocks_lt (enc : List Nat → List Nat)
    (hlen : ∀ b, b.length = 16 → (enc b).length = 16)
    (hbyte : ∀ b, b.length = 16 → (∀ x ∈ b, x < 256) → ∀ x ∈ enc b, x < 256) :
    ∀ (ps : List (List Nat)) (iv : List Nat), iv.length = 16 → (∀ x ∈ iv, x < 256) →
    (∀ p ∈ ps, p.length = 16) → (∀ p ∈ ps, ∀ x ∈ p, x < 256) →
    ∀ c ∈ cbcEncrypt enc iv ps, ∀ x ∈ c, x < 256 := by
  intro ps
  induction ps with
  | nil => intro iv _ _ _ _ c hc; simp [cbcEncrypt] at hc
  | cons p ps ih =>
    intro iv hiv hivb hps hpsb c hc
    have hp : p.length = 16 := hps p (by simp)
    have hpb : ∀ x ∈ p, x < 256 := hpsb p (by simp)
    have hxlen : (xorBytes p iv).length = 16 := by rw [xorBytes_length, hp, hiv]; omega
    have hxb : ∀ x ∈ xorBytes p iv, x < 256 := xorBytes_lt p iv hpb hivb
    simp only [cbcEncrypt, List.mem_cons] at hc
    rcases hc with rfl | hc
    · exact hbyte _ hxlen hxb
    · exact ih (enc (xorBytes p iv)) (hlen _ hxlen) (hbyte _ hxlen hxb)
        (fun q hq => hps q (by simp [hq])) (fun q hq => hpsb q (by simp [hq])) c hc

/-! ### ASCII string/byte round trip -/

theorem char_ofNat_toNat {c : Char} (h : c.toNat < 128) : Char.ofNat c.toNat = c := by
  have hv : Nat.isValidChar c.toNat := Or.inl (by omega)
  apply Char.eq_of_val_eq
  simp only [Char.ofNat, dif_pos hv, Char.ofNatAux]
  obtain ⟨⟨⟨n, hn⟩⟩, valid⟩ := c
  rfl

theorem string_mk_data (s : String) : String.mk s.data = s := by
  cases s
  rfl

theorem strBytes_lt (s : String) (h : ∀ c ∈ s.data, c.toNat < 128) :
    ∀ b ∈ strBytes s, b < 256 := by
  intro b hb
  rcases List.mem_map.mp hb with ⟨c, hc, rfl⟩
  have := h c hc
  omega

theorem utf8Decode_strBytes (s : String) (h : ∀ c ∈ s.data, c.toNat < 128) :
    utf8Decode (strBytes s) = .ok s := by
  unfold utf8Decode strBytes
  rw [if_pos]
  · rw [List.map_map]
    have he : ∀ c ∈ s.data, (Char.ofNat ∘ Char.toNat) c = id c := fun c hc =>
      char_ofNat_toNat (h c hc)
    rw [List.map_congr_left he, List.map_id, string_mk_data]
  · simp only [List.all_eq_true, List.mem_map]
    rintro b ⟨c, hc, rfl⟩
    have := h c hc
    simp
    omega

/-! ### JSON round trip for the shapes the decoder meets -/

theorem parseStrBody_escaped (l : List Char) (rest : List Char) :
    parseStrBody ((l.map jsonEscChar).flatten ++ ('"' :: rest)) = .ok (l, rest) := by
  induction l with
  | nil =>
    show parseStrBody ('"' :: rest) = Except.ok ([], rest)
    rw [parseStrBody.eq_def]
    simp +decide
  | cons c cs ih =>
    by_cases h1 : c = '"'
    · subst h1
      have he : jsonEscChar '"' = ['\\', '"'] := rfl
      simp only [List.map_cons, he, List.flatten_cons, List.cons_append]
      rw [parseStrBody.eq_def]
      simp +decide [escCharE, ih, Except.bind, Except.map]
    · by_cases h2 : c = '\\'
      · subst h2
        have he : jsonEscChar '\\' = ['\\', '\\'] := rfl
        simp only [List.map_cons, he, List.flatten_cons, List.cons_append]
        rw [parseStrBody.eq_def]
        simp +decide [escCharE, ih, Except.bind, Except.map]
      · have he : jsonEscChar c = [c] := by simp [jsonEscChar, h1, h2]
        simp only [List.map_cons, he, List.flatten_cons, List.cons_append]
        rw [parseStrBody.eq_def]
        simp [h1, h2, ih, Except.map]

theorem parseVal_jsonEncStr (fuel : Nat) (s : String) (rest : List Char) :
    parseVal (fuel + 1) (jsonEncStr s ++ rest) = .ok (JVal.jstr s, rest) := by
  have hsh : jsonEncStr s ++ rest =
      '"' :: ((s.data.map jsonEscChar).flatten ++ ('"' :: rest)) := by
    simp [jsonEncStr, jsonStrLit]
  rw [hsh, parseVal.eq_def]
  simp +decide [skipWs, isWs, parseStrBody_escaped, Except.map, string_mk_data]

theorem except_bind_ok {ε α β : Type} (a : α) (f : α → Except ε β) :
    (do let x ← Except.ok a; f x : Except ε β) = f a := rfl

theorem except_bind_err {ε α β : Type} (e : ε) (f : α → Except ε β) :
    (do let x ← (Except.error e : Except ε α); f x : Except ε β) = Except.error e := rfl

theorem except_map_ok {ε α β : Type} (f : α → β) (a : α) :
    (Except.ok a : Except ε α).map f = Except.ok (f a) := rfl

theorem parseElems_last (fuel : Nat) (u : String) (rest : List Char) :
    parseElems (fuel + 1 + 1) (jsonEncStr u ++ (']' :: rest)) = .ok ([JVal.jstr u], rest) := by
  rw [parseElems.eq_def]
  simp only [parseVal_jsonEncStr, except_bind_ok]
  rfl

theorem parseElems_two (fuel : Nat) (u1 u2 : String) (rest : List Char) :
    parseElems (fuel + 1 + 1 + 1)
        (jsonEncStr u1 ++ (',' :: (jsonEncStr u2 ++ (']' :: rest)))) =
      .ok ([JVal.jstr u1, JVal.jstr u2], rest) := by
  have hs0 : skipWs (',' :: (jsonEncStr u2 ++ (']' :: rest))) =
      ',' :: (jsonEncStr u2 ++ (']' :: rest)) := rfl
  rw [parseElems.eq_def]
  simp only [parseVal_jsonEncStr, except_bind_ok, hs0, parseElems_last, except_map_ok]

theorem parseVal_arr2 (fuel : Nat) (u1 u2 : String) (rest : List Char) :
    parseVal (fuel + 1 + 1 + 1 + 1)
        ('[' :: (jsonEncStr u1 ++ (',' :: (jsonEncStr u2 ++ (']' :: rest))))) =
      .ok (JVal.jarr [JVal.jstr u1, JVal.jstr u2], rest) := by
  have hskip : skipWs (jsonEncStr u1 ++ (',' :: (jsonEncStr u2 ++ (']' :: rest)))) =
      '"' :: ((u1.data.map jsonEscChar).flatten ++
        ('"' :: (',' :: (jsonEncStr u2 ++ (']' :: rest))))) := by
    simp +decide [jsonEncStr, jsonStrLit, skipWs, isWs]
  have hs0 : skipWs ('[' :: (jsonEncStr u1 ++ (',' :: (jsonEncStr u2 ++ (']' :: rest))))) =
      '[' :: (jsonEncStr u1 ++ (',' :: (jsonEncStr u2 ++ (']' :: rest)))) := rfl
  rw [parseVal.eq_def]
  simp only [hs0, hskip, parseElems_two, except_map_ok]
  rfl

theorem jsonParse_encArr2 (u1 u2 : String) :
    jsonParse (encArr2 u1 u2) = .ok (JVal.jarr [JVal.jstr u1, JVal.jstr u2]) := by
  unfold jsonParse encArr2
  have hd : (String.mk ('[' :: jsonEncStr u1 ++ ',' :: jsonEncStr u2 ++ [']'])).data =
      '[' :: (jsonEncStr u1 ++ (',' :: (jsonEncStr u2 ++ (']' :: [])))) := by
    simp
  have hl : (String.mk ('[' :: jsonEncStr u1 ++ ',' :: jsonEncStr u2 ++ [']'])).length + 8 =
      ('[' :: (jsonEncStr u1 ++ (',' :: (jsonEncStr u2 ++
        (']' :: []))))).length + 4 + 1 + 1 + 1 + 1 := by
    simp [String.length]
  rw [hd, hl, parseVal_arr2]
  show (if skipWs ([] : List Char) = [] then
      Except.ok (JVal.jarr [JVal.jstr u1, JVal.jstr u2])
    else Except.error ("Extra data")) = Except.ok (JVal.jarr [JVal.jstr u1, JVal.jstr u2])
  rw [if_pos (show skipWs ([] : List Char) = [] from rfl)]

/-! ### The full decrypt-of-encrypt round trip -/

theorem cryptoAES_decrypt_specEncrypt
    (hash : List Nat → List Nat) (enc dec : List Nat → List Nat → List Nat)
    (password : String) (salt : List Nat) (pt : String)
    (hLen : ∀ x, (hash x).length = 16)
    (hhashB : ∀ x, ∀ y ∈ hash x, y < 256)
    (hsalt8 : salt.length = 8) (hsaltB : ∀ b ∈ salt, b < 256)
    (hpt : ∀ c ∈ pt.data, c.toNat < 128)
    (hinv : ∀ b, b.length = 16 →
      dec (generate_key_and_iv hash (strBytes password) salt 32 16).1
        (enc (generate_key_and_iv hash (strBytes password) salt 32 16).1 b) = b)
    (hencl : ∀ b, b.length = 16 →
      (enc (generate_key_and_iv hash (strBytes password) salt 32 16).1 b).length = 16)
    (hencB : ∀ b, b.length = 16 → (∀ x ∈ b, x < 256) →
      ∀ x ∈ enc (generate_key_and_iv hash (strBytes password) salt 32 16).1 b, x < 256) :
    CryptoAES_decrypt hash dec (specEncrypt hash enc password salt pt) password = .ok pt := by
  have hkdf := kdf_three_digests hash (strBytes password) salt hLen
  have hivlen : (generate_key_and_iv hash (strBytes password) salt 32 16).2.length = 16 := by
    rw [hkdf]
    exact hLen _
  have hivB : ∀ x ∈ (generate_key_and_iv hash (strBytes password) salt 32 16).2, x < 256 := by
    rw [hkdf]
    exact hhashB _
  have hpadmod : (pkcs7Pad 16 (strBytes pt)).length % 16 = 0 := by
    unfold pkcs7Pad
    simp
    omega
  have hblocklen : ∀ b ∈ chunks16 (pkcs7Pad 16 (strBytes pt)), b.length = 16 :=
    chunks16_blocks_len _ hpadmod
  have hpadB : ∀ x ∈ pkcs7Pad 16 (strBytes pt), x < 256 := by
    intro x hx
    unfold pkcs7Pad at hx
    rcases List.mem_append.mp hx with hx | hx
    · exact strBytes_lt pt hpt x hx
    · have hxe := List.eq_of_mem_replicate hx
      omega
  have hblockB : ∀ b ∈ chunks16 (pkcs7Pad 16 (strBytes pt)), ∀ x ∈ b, x < 256 := by
    intro b hb x hx
    apply hpadB
    rw [← chunks16_flatten_eq (pkcs7Pad 16 (strBytes pt))]
    exact List.mem_flatten.mpr ⟨b, hb, hx⟩
  have hctblen : ∀ b ∈ cbcEncrypt
      (enc (generate_key_and_iv hash (strBytes password) salt 32 16).1)
      (generate_key_and_iv hash (strBytes password) salt 32 16).2
      (chunks16 (pkcs7Pad 16 (strBytes pt))), b.length = 16 :=
    cbcEncrypt_blocks_len _ hencl _ _ hivlen hblocklen
  have hctB : ∀ x ∈ (cbcEncrypt
      (enc (generate_key_and_iv hash (strBytes password) salt 32 16).1)
      (generate_key_and_iv hash (strBytes password) salt 32 16).2
      (chunks16 (pkcs7Pad 16 (strBytes pt)))).flatten, x < 256 :=
    flatten_blocks_lt _ (cbcEncrypt_blocks_lt _ hencl hencB _ _ hivlen hivB hblocklen hblockB)
  have hctmod : (cbcEncrypt
      (enc (generate_key_and_iv hash (strBytes password) salt 32 16).1)
      (generate_key_and_iv hash (strBytes password) salt 32 16).2
      (chunks16 (pkcs7Pad 16 (strBytes pt)))).flatten.length % 16 = 0 :=
    flatten_blocks_mod _ hctblen
  have hmagicB : ∀ x ∈ strBytes ("Salted__"), x < 256 := by decide
  have hallB : ∀ x ∈ strBytes ("Salted__") ++ salt ++ (cbcEncrypt
      (enc (generate_key_and_iv hash (strBytes password) salt 32 16).1)
      (generate_key_and_iv hash (strBytes password) salt 32 16).2
      (chunks16 (pkcs7Pad 16 (strBytes pt)))).flatten, x < 256 := by
    intro x hx
    rcases List.mem_append.mp hx with hx | hx
    · rcases List.mem_append.mp hx with hx | hx
      · exact hmagicB x hx
      · exact hsaltB x hx
    · exact hctB x hx
  have hdrop16 : ∀ ct : List Nat, (strBytes ("Salted__") ++ salt ++ ct).drop 16 = ct := by
    intro ct
    refine List.drop_left' ?_
    simp [hsalt8]
    rfl
  have hsaltslice : ∀ ct : List Nat,
      ((strBytes ("Salted__") ++ salt ++ ct).drop 8).take 8 = salt := by
    intro ct
    rw [List.append_assoc, List.drop_left' (show (strBytes ("Salted__")).length = 8 from rfl),
      List.take_left' hsalt8]
  unfold specEncrypt CryptoAES_decrypt
  rw [b64Decode_encode _ hallB, except_bind_ok, hdrop16, hsaltslice]
  rw [if_neg (not_ne_iff.mpr hctmod)]
  rw [chunks16_of_flatten _ hctblen]
  rw [cbc_roundtrip
    (enc (generate_key_and_iv hash (strBytes password) salt 32 16).1)
    (dec (generate_key_and_iv hash (strBytes password) salt 32 16).1)
    hinv hencl _ _ hivlen hblocklen]
  rw [chunks16_flatten_eq, pkcs7_unpad_pad, except_bind_ok]
  exact utf8Decode_strBytes pt hpt

theorem mem_jsonEscChar {x c : Char} (h : x ∈ jsonEscChar c) :
    x = c ∨ x = '\\' ∨ x = '"' := by
  unfold jsonEscChar at h
  by_cases h1 : c = '"' <;> by_cases h2 : c = '\\' <;> simp [h1, h2] at h <;> tauto

theorem encArr2_ascii (u1 u2 : String)
    (hu1 : ∀ c ∈ u1.data, c.toNat < 128) (hu2 : ∀ c ∈ u2.data, c.toNat < 128) :
    ∀ c ∈ (encArr2 u1 u2).data, c.toNat < 128 := by
  intro c hc
  have hesc : ∀ (u : String), (∀ d ∈ u.data, d.toNat < 128) →
      ∀ d ∈ jsonEncStr u, d.toNat < 128 := by
    intro u hu d hd
    unfold jsonEncStr jsonStrLit at hd
    rcases List.mem_cons.mp hd with rfl | hd
    · decide
    · rcases List.mem_append.mp hd with hd | hd
      · rcases List.mem_flatten.mp hd with ⟨piece, hp, hdp⟩
        rcases List.mem_map.mp hp with ⟨e, he, rfl⟩
        rcases mem_jsonEscChar hdp with rfl | rfl | rfl
        · exact hu _ he
        · decide
        · decide
      · rcases List.mem_singleton.mp hd with rfl
        decide
  unfold encArr2 at hc
  rw [string_mk_data] at hc
  rcases List.mem_cons.mp hc with rfl | hc
  · decide
  rcases List.mem_append.mp hc with hc | hc
  · rcases List.mem_append.mp hc with hc | hc
    · exact hesc u1 hu1 c hc
    · rcases List.mem_cons.mp hc with rfl | hc
      · decide
      · exact hesc u2 hu2 c hc
  · rcases List.mem_singleton.mp hc with rfl
    decide

/-- Claim C5, amended: for every 16-byte-digest byte-valued hash, every
invertible length-preserving byte-valued block cipher, every ASCII password,
8-byte salt and pair of ASCII URL strings, encrypting the JSON array of the
two URLs with the specified KDF + CBC + PKCS padding + base64 payload layout
and then running the payload decoder returns exactly the two URLs — with ONE
level of JSON decoding applied to the decrypted plaintext (the source's
`json.loads(decrypted_text)`), not the two levels the spec describes (see the
counterexample). -/
theorem c5_decrypt_roundtrip_amended
    (hash : List Nat → List Nat) (enc dec : List Nat → List Nat → List Nat)
    (password : String) (salt : List Nat) (u1 u2 : String)
    (hLen : ∀ x, (hash x).length = 16)
    (hhashB : ∀ x, ∀ y ∈ hash x, y < 256)
    (hsalt8 : salt.length = 8) (hsaltB : ∀ b ∈ salt, b < 256)
    (hu1 : ∀ c ∈ u1.data, c.toNat < 128) (hu2 : ∀ c ∈ u2.data, c.toNat < 128)
    (hinv : ∀ b, b.length = 16 →
      dec (generate_key_and_iv hash (strBytes password) salt 32 16).1
        (enc (generate_key_and_iv hash (strBytes password) salt 32 16).1 b) = b)
    (hencl : ∀ b, b.length = 16 →
      (enc (generate_key_and_iv hash (strBytes password) salt 32 16).1 b).length = 16)
    (hencB : ∀ b, b.length = 16 → (∀ x ∈ b, x < 256) →
      ∀ x ∈ enc (generate_key_and_iv hash (strBytes password) salt 32 16).1 b, x < 256) :
    payloadDecode hash dec (specEncrypt hash enc password salt (encArr2 u1 u2)) password =
      .ok (JVal.jarr [JVal.jstr u1, JVal.jstr u2]) := by
  unfold payloadDecode
  rw [cryptoAES_decrypt_specEncrypt hash enc dec password salt (encArr2 u1 u2) hLen hhashB
    hsalt8 hsaltB (encArr2_ascii u1 u2 hu1 hu2) hinv hencl hencB, except_bind_ok]
  exact jsonParse_encArr2 u1 u2

/-- A constant 16-byte digest standing in for MD5 in concrete runs. -/
def constMd5 : List Nat → List Nat := fun _ => List.replicate 16 7

/-- The identity block map standing in for keyed AES in concrete runs. -/
def idBlock : List Nat → List Nat → List Nat := fun _ b => b

theorem c5_witness :
    payloadDecode constMd5 idBlock
        (specEncrypt constMd5 idBlock ("p") [0, 1, 2, 3, 4, 5, 6, 7] (encArr2 ("a") ("b")))
        ("p") =
      .ok (JVal.jarr [JVal.jstr ("a"), JVal.jstr ("b")]) :=
  c5_decrypt_roundtrip_amended constMd5 idBlock idBlock ("p") [0, 1, 2, 3, 4, 5, 6, 7]
    ("a") ("b")
    (fun _ => by simp [constMd5])
    (fun x y hy => by rw [List.eq_of_mem_replicate hy]; omega)
    rfl (by decide) (by decide) (by decide)
    (fun b _ => rfl) (fun b h => h) (fun b _ hb => hb)

/-- Claim C5, counterexample: encrypting the plaintext the spec itself
describes in section 4.2 step 4 — a JSON-encoded STRING that contains the
JSON array of the two URLs, requiring two levels of JSON decoding — the
source decoder (`payloadDecode`, one `json.loads`) returns a JSON string
value, not the two URLs; the decoder modelled from the spec's words
(`payloadDecodeTwoLevel`) does return them.  The claim's "the plaintext being
taken through two levels of JSON decoding as specified" is therefore false of
the code. -/
theorem jsonParse_encStr (s : String) :
    jsonParse (String.mk (jsonEncStr s)) = .ok (JVal.jstr s) := by
  unfold jsonParse
  have hv : parseVal ((String.mk (jsonEncStr s)).length + 7 + 1)
      ((String.mk (jsonEncStr s)).data) = .ok (JVal.jstr s, []) := by
    rw [show (String.mk (jsonEncStr s)).data = jsonEncStr s ++ ([] : List Char) from by simp]
    exact parseVal_jsonEncStr _ s []
  rw [show (String.mk (jsonEncStr s)).length + 8 =
    (String.mk (jsonEncStr s)).length + 7 + 1 from rfl]
  rw [hv, except_bind_ok]
  show (if skipWs ([] : List Char) = [] then Except.ok (JVal.jstr s)
    else Except.error ("Extra data")) = Except.ok (JVal.jstr s)
  rw [if_pos (show skipWs ([] : List Char) = [] from rfl)]

theorem c5_two_level_counterexample :
    payloadDecode constMd5 idBlock
        (specEncrypt constMd5 idBlock ("p") [0, 1, 2, 3, 4, 5, 6, 7]
          (String.mk (jsonEncStr (encArr2 ("a") ("b"))))) ("p") =
      .ok (JVal.jstr (encArr2 ("a") ("b"))) ∧
    ¬ (payloadDecode constMd5 idBlock
        (specEncrypt constMd5 idBlock ("p") [0, 1, 2, 3, 4, 5, 6, 7]
          (String.mk (jsonEncStr (encArr2 ("a") ("b"))))) ("p") =
      .ok (JVal.jarr [JVal.jstr ("a"), JVal.jstr ("b")])) ∧
    payloadDecodeTwoLevel constMd5 idBlock
        (specEncrypt constMd5 idBlock ("p") [0, 1, 2, 3, 4, 5, 6, 7]
          (String.mk (jsonEncStr (encArr2 ("a") ("b"))))) ("p") =
      .ok (JVal.jarr [JVal.jstr ("a"), JVal.jstr ("b")]) := by
  have hround := cryptoAES_decrypt_specEncrypt constMd5 idBlock idBlock ("p")
    [0, 1, 2, 3, 4, 5, 6, 7] (String.mk (jsonEncStr (encArr2 ("a") ("b"))))
    (fun _ => by simp [constMd5])
    (fun x y hy => by rw [List.eq_of_mem_replicate hy]; omega)
    rfl (by decide) (by decide)
    (fun b _ => rfl) (fun b h => h) (fun b _ hb => hb)
  have h1 : payloadDecode constMd5 idBlock
      (specEncrypt constMd5 idBlock ("p") [0, 1, 2, 3, 4, 5, 6, 7]
        (String.mk (jsonEncStr (encArr2 ("a") ("b"))))) ("p") =
      .ok (JVal.jstr (encArr2 ("a") ("b"))) := by
    unfold payloadDecode
    rw [hround, except_bind_ok, jsonParse_encStr]
  have h3 : payloadDecodeTwoLevel constMd5 idBlock
      (specEncrypt constMd5 idBlock ("p") [0, 1, 2, 3, 4, 5, 6, 7]
        (String.mk (jsonEncStr (encArr2 ("a") ("b"))))) ("p") =
      .ok (JVal.jarr [JVal.jstr ("a"), JVal.jstr ("b")]) := by
    unfold payloadDecodeTwoLevel
    rw [hround, except_bind_ok, jsonParse_encStr, except_bind_ok]
    exact jsonParse_encArr2 ("a") ("b")
  refine ⟨h1, ?_, h3⟩
  intro h
  rw [h1] at h
  exact JVal.noConfusion (Except.ok.inj h)

/-! ### Claim C7: what the Madara image-resolution step does on decode
failures -/

/-- Claim C7, amended: the image-resolution step returns an empty image list
only when the protector element is absent (or falsy); when protector data is
present but malformed, the decode error propagates out of
`parse_chapter_image` (a Python exception — here the error value), so the
chapter record is not produced with an empty list.  The second conjunct shows
it for the first failure in the chain (the nonce regex missing, the
`.group(1)` `AttributeError`); the counterexample shows a malformed-base64
failure concretely. -/
theorem c7_decode_failure_amended :
    (∀ (hash : List Nat → List Nat) (dec : List Nat → List Nat → List Nat)
      (pg : Madara.Page), pg.directImages = [] → pg.protectorData = none →
      Madara.parse_chapter_image hash dec pg = .ok (JVal.jarr [])) ∧
    (∀ (hash : List Nat → List Nat) (dec : List Nat → List Nat → List Nat)
      (pg : Madara.Page) (pd : String),
      pg.directImages = [] → pg.protectorData = some pd → ¬ (pd = "") →
      Madara.get_password_from_protector pd.data = none →
      ∃ e, Madara.parse_chapter_image hash dec pg = .error e) := by
  constructor
  · intro hash dec pg h1 h2
    unfold Madara.parse_chapter_image Madara.parse_protector_image
    rw [if_neg (by simp [h1]), h2]
  · intro hash dec pg pd h1 h2 h3 h4
    unfold Madara.parse_chapter_image Madara.parse_protector_image
    rw [if_neg (by simp [h1]), h2]
    refine ⟨("AttributeError: NoneType has no attribute group"), ?_⟩
    show (if pd = "" then Except.ok (JVal.jarr [])
      else match Madara.get_password_from_protector pd.data with
        | none => Except.error ("AttributeError: NoneType has no attribute group")
        | some pw =>
          match Madara.get_chapter_data_str pd.data with
          | none => Except.error ("AttributeError: NoneType has no attribute group")
          | some cds => do
            let txt ← Madara.decrypt_chapter_data hash dec cds pw
            jsonParse txt) =
      Except.error ("AttributeError: NoneType has no attribute group")
    rw [if_neg h3, h4]

theorem c7_witness :
    Madara.parse_chapter_image constMd5 idBlock ⟨[], none⟩ = .ok (JVal.jarr []) ∧
    ∃ e, Madara.parse_chapter_image constMd5 idBlock ⟨[], some ("x")⟩ = .error e :=
  ⟨c7_decode_failure_amended.1 constMd5 idBlock ⟨[], none⟩ rfl rfl,
   c7_decode_failure_amended.2 constMd5 idBlock ⟨[], some ("x")⟩ ("x") rfl rfl
     (by decide) rfl⟩

/-- A protector element whose envelope carries a well-formed salt but a
ciphertext that is not valid base64 (five data characters). -/
def badProtector : String :=
  "wpmangaprotectornonce='pw'; chapter_data='\x7b\"s\":\"0102030405060708\",\"ct\":\"abcde\"\x7d';"

/-- Claim C7, counterexample: on a malformed-base64 payload the
image-resolution step yields an error (in Python, `binascii.Error` escapes
`parse_chapter_image`), not the empty image list the claim asserts. -/
theorem c7_malformed_base64_counterexample :
    Madara.parse_chapter_image constMd5 idBlock ⟨[], some badProtector⟩ =
      .error ("Invalid base64-encoded string: length not a multiple of 4") ∧
    ¬ (Madara.parse_chapter_image constMd5 idBlock ⟨[], some badProtector⟩ =
      .ok (JVal.jarr [])) := by
  have h1 : Madara.parse_chapter_image constMd5 idBlock ⟨[], some badProtector⟩ =
      .error ("Invalid base64-encoded string: length not a multiple of 4") := by rfl
  refine ⟨h1, ?_⟩
  intro h
  rw [h1] at h
  exact Except.noConfusion h

end SManga
